import Mathlib

/-
Verification of the `pncdump` CDL renderer (src/src/PseudoNetCDF/pncdump.py).

The renderer walks a PseudoNetCDF file object (dimensions, variables,
attributes, optional nested groups) and writes a textual CDL rendering to
stdout, write call by write call.  We embed the renderer shallowly:

  * the data model (`Container`, `Variable`, `Dimension`, attribute values)
    mirrors the read-only contract the Python code consumes;
  * stdout is modelled as a `Sink` that decides, per write call, whether the
    write succeeds, raises IOError (broken pipe) or raises KeyboardInterrupt;
  * `pncdump` threads the write counter and returns the list of successful
    writes, the warnings issued, the close/flush actions taken, and the
    pending exception (`Fault`), mirroring the try/except structure of the
    Python code (IOError handlers around the two data-value writes, the
    KeyboardInterrupt handler around the whole data section, `exit()`
    modelled as `Fault.sysExit`).

Floating-point decimal rendering is not modelled: a float scalar or float
attribute carries its display text (`Scalar.f`, `Value.f`); no claim below
depends on the decimal text of a float.
-/

namespace PncDump

/-- Element of a variable's dense value array.  `Scalar.f` carries the
display text of a floating-point value (IEEE rendering is not modelled). -/
inductive Scalar where
  | i (n : Int)
  | s (v : String)
  | b (v : Bool)
  | f (txt : String)
deriving DecidableEq, Repr

/-- Attribute value (variable attribute or global attribute).  `Value.f`
carries the display text of a floating-point value. -/
inductive Value where
  | s (v : String)
  | i (n : Int)
  | f (txt : String)
deriving DecidableEq, Repr

/-- A named axis: `len(dim)` and `dim.isunlimited()` of the Python object. -/
structure Dimension where
  size : Nat
  unlimited : Bool
deriving DecidableEq, Repr

/-- A variable: numpy dtype name, dimension-name sequence (`var.dimensions`),
numpy shape (`var.shape`), the dense array flattened in row-major order, and
the attribute list in `var.ncattrs()` order. -/
structure Variable where
  dtypeName : String
  dims : List String
  shape : List Nat
  data : List Scalar
  attrs : List (String × Value)
deriving DecidableEq, Repr

/- A PseudoNetCDF file or group.  `fileType` is the class name
`str(type(f)).split("...")[1]`; `hasGroups` models `hasattr(f, 'groups')`;
the association lists keep insertion order, as the Python ordered mappings
do. -/
mutual
inductive Container where
  | mk (fileType : String) (dims : List (String × Dimension))
       (vars : List (String × Variable)) (attrs : List (String × Value))
       (hasGroups : Bool) (groups : GroupList)
inductive GroupList where
  | nil
  | cons (name : String) (g : Container) (rest : GroupList)
end

def Container.fileType : Container → String
  | .mk ft _ _ _ _ _ => ft

def Container.dims : Container → List (String × Dimension)
  | .mk _ d _ _ _ _ => d

def Container.vars : Container → List (String × Variable)
  | .mk _ _ v _ _ _ => v

def Container.attrs : Container → List (String × Value)
  | .mk _ _ _ a _ _ => a

def Container.hasGroups : Container → Bool
  | .mk _ _ _ _ h _ => h

def Container.groups : Container → GroupList
  | .mk _ _ _ _ _ g => g

/-- Keyword arguments of `pncdump` (source line 21). `full_indices` is the
optional mode string (`'c'` or `'f'`); `varFilter` is the keyword argument
named `variables` in the source (a Lean reserved word), the subsetting
filter. -/
structure Cfg where
  name : String
  header : Bool
  varFilter : List String
  line_length : Nat
  full_indices : Option String
  float_precision : Nat
  double_precision : Nat
  isgroup : Bool
deriving DecidableEq, Repr

/-- The recursive call at source line 96 passes every option through
unchanged and sets `isgroup = True`. -/
def Cfg.asGroup (c : Cfg) : Cfg :=
  ⟨c.name, c.header, c.varFilter, c.line_length, c.full_indices,
   c.float_precision, c.double_precision, true⟩

/-- Python `str.replace` on character lists: leftmost non-overlapping
occurrences, scanning resumes after the inserted replacement.  The fuel
argument (instantiated with the list length) only makes the recursion
structural; it never runs out. -/
def replCharsFuel (old new : List Char) : Nat → List Char → List Char
  | _, [] => []
  | 0, l => l
  | fuel + 1, c :: rest =>
    if old.isPrefixOf (c :: rest) ∧ old ≠ [] then
      new ++ replCharsFuel old new fuel ((c :: rest).drop old.length)
    else
      c :: replCharsFuel old new fuel rest

/-- Python `s.replace(old, new)`. -/
def pyReplace (s old new : String) : String :=
  ⟨replCharsFuel old.data new.data s.data.length s.data⟩

/-- Python `str()` of a scalar (`%s` formatting). -/
def pyStr : Scalar → String
  | .i n => toString n
  | .s v => v
  | .b true => "True"
  | .b false => "False"
  | .f t => t

/-- Display text of a float under a `"%.Ne"` format: the decimal rendering
itself is not modelled, the scalar carries it (see `Scalar.f`). -/
def pyFloatText : Scalar → String
  | .f t => t
  | v => pyStr v

/-- Application of one single-specifier format string from the `formats`
table to one scalar (Python `fmt % val`). -/
def scalarText (fmt : String) (v : Scalar) : String :=
  if fmt = "%i" then
    match v with
    | .i n => toString n
    | w => pyStr w
  else if fmt = "%s" then pyStr v
  else if fmt = "\x27%s\x27" then "\x27" ++ pyStr v ++ "\x27"
  else pyFloatText v

/-- Python `repr` of an attribute value.  String escaping inside the quotes
is not modelled (all attribute strings used below are escape-free). -/
def pyRepr : Value → String
  | .s v => "\x27" ++ v ++ "\x27"
  | .i n => toString n
  | .f t => t

/-- Rendered attribute value: `repr(prop).replace("'", '"')` (source lines
83 and 91). -/
def attrText (v : Value) : String :=
  pyReplace (pyRepr v) "\x27" "\""

/-- Python `str()` of a tuple of strings, as `str(var.dimensions)` produces
it (source line 80). -/
def pyStrTuple : List String → String
  | [] => "()"
  | [x] => "(\x27" ++ x ++ "\x27,)"
  | xs => "(" ++ String.intercalate ", " (xs.map (fun x => "\x27" ++ x ++ "\x27")) ++ ")"

/-- `str(var.dimensions).replace("u'", '').replace("'", '').replace(',)', ')')`
(source line 80). -/
def dimsDisplay (ds : List String) : String :=
  pyReplace (pyReplace (pyReplace (pyStrTuple ds) "u\x27" "") "\x27" "") ",)" ")"

/-- Python `str()` of a tuple of integers, as `str(idx)` produces it for an
`ndenumerate` index (source lines 122-123). -/
def pyStrTupleNat : List Nat → String
  | [] => "()"
  | [x] => "(" ++ toString x ++ ",)"
  | xs => "(" ++ String.intercalate ", " (xs.map toString) ++ ")"

/-- The `id_display` function selected at source lines 122-123: mode `'f'`
reverses the index tuple and reports 1-based coordinates; mode `'c'` prints
the 0-based tuple as is. -/
def idDisplay (mode : String) (idx : List Nat) : String :=
  if mode = "f" then pyStrTupleNat (idx.reverse.map (fun x => x + 1))
  else pyStrTupleNat idx

/-- Row-major index enumeration of a dense array of the given shape: the
index order `numpy.ndenumerate` yields (first axis slowest). -/
def allIndices : List Nat → List (List Nat)
  | [] => [[]]
  | d :: rest => (List.range d).flatMap (fun i => (allIndices rest).map (fun t => i :: t))

/-- The `formats` dictionary (source lines 37-43), as a lookup from the
numpy dtype name; the precision is spliced into the e-format text. -/
def formats (fp dp : Nat) (t : String) : Option String :=
  if t = "float64" then some ("%." ++ toString dp ++ "e")
  else if t = "float32" then some ("%." ++ toString fp ++ "e")
  else if t = "int32" then some "%i"
  else if t = "int64" then some "%i"
  else if t = "str" then some "%s"
  else if t = "bool" then some "%s"
  else if t = "string8" then some ("\x27%s\x27")
  else none

/-- The variable-declaration type-keyword dictionary (source lines 73-79). -/
def varTypeMap (t : String) : Option String :=
  if t = "float32" then some "float"
  else if t = "float64" then some "double"
  else if t = "int32" then some "integer"
  else if t = "int64" then some "long"
  else if t = "bool" then some "bool"
  else if t = "string8" then some "char"
  else if t = "string80" then some "char"
  else none

/-- `len(f.dimensions[d]) for d in var.dimensions` (source line 140); `none`
models the KeyError on a missing dimension name. -/
def resolveSizes (dims : List (String × Dimension)) : List String → Option (List Nat)
  | [] => some []
  | d :: rest =>
    match dims.lookup d, resolveSizes dims rest with
    | some dm, some l => some (dm.size :: l)
    | _, _ => none

def listProd (l : List Nat) : Nat := l.foldl (· * ·) 1

/-- The reshape target of the reshaped data mode (source lines 141-146):
`[product of leading axes, last axis]` for more than one axis, else
`[1] + dimensions`. -/
def reshapedShape (dimensions : List Nat) : List Nat :=
  if 1 < dimensions.length then
    [listProd dimensions.dropLast, dimensions.getLastD 1]
  else 1 :: dimensions

/-- Row iteration of `var[...].reshape(shape)`: `numRows` rows of `rowLen`
consecutive elements of the row-major flat data. -/
def takeRows (rowLen : Nat) : Nat → List Scalar → List (List Scalar)
  | 0, _ => []
  | r + 1, data => data.take rowLen :: takeRows rowLen r (data.drop rowLen)

/-- One row of the reshaped data mode before wrapping:
`', '.join(shape[-1] * [formats[...]]) % row` followed by the `;`/`,`
terminator of source lines 154-158. -/
def rowStr (efmt : String) (numRows rowi : Nat) (row : List Scalar) : String :=
  String.intercalate ", " (row.map (scalarText efmt)) ++
    (if rowi = numRows - 1 then ";" else ",")

/-- Source line 111: `[var_name for var_name in f.variables.keys() if
var_name in variables or variables == []]`. -/
def displayVars (keys : List String) (filt : List String) : List String :=
  keys.filter (fun vn => filt.contains vn || filt.isEmpty)

/-- Word splitter for the line-wrap model: maximal runs of non-space
characters (`textwrap` whitespace handling restricted to plain spaces, the
only whitespace the renderer's row strings contain between tokens). -/
def splitWordsAux (cur : List Char) : List Char → List (List Char)
  | [] => if cur = [] then [] else [cur.reverse]
  | c :: rest =>
    if c = ' ' then
      if cur = [] then splitWordsAux [] rest
      else cur.reverse :: splitWordsAux [] rest
    else splitWordsAux (c :: cur) rest

/-- Greedy packing of words into lines of at most `width` characters,
continuation lines starting with the subsequent indent: the wrapping
discipline of `textwrap.fill` (long words are not broken; no claim below
depends on the break positions). -/
def packLines (width : Nat) (subi : List Char) : List Char → List (List Char) → List (List Char)
  | cur, [] => [cur]
  | cur, w :: ws =>
    if cur.length + 1 + w.length ≤ width then
      packLines width subi (cur ++ ' ' :: w) ws
    else
      cur :: packLines width subi (subi ++ w) ws

/-- Model of `textwrap.fill(text, width, initial_indent, subsequent_indent)`
(source line 161). -/
def fillGreedy (width : Nat) (ii subi : String) (text : String) : String :=
  match splitWordsAux [] text.data with
  | [] => ""
  | w :: ws => ⟨List.intercalate ['\n'] (packLines width subi.data (ii.data ++ w) ws)⟩

/-- Behaviour of one `sys.stdout.write` call: success, IOError (broken
pipe / closed sink) or a KeyboardInterrupt delivered at that call. -/
inductive WRes where
  | ok
  | ioerr
  | kbint
deriving DecidableEq, Repr

/-- The output sink: what the n-th write call of a render does. -/
structure Sink where
  res : Nat → WRes

/-- A sink on which every write succeeds. -/
def okSink : Sink := ⟨fun _ => .ok⟩

/-- A sink whose k-th write call raises IOError. -/
def failSink (k : Nat) : Sink := ⟨fun n => if n = k then .ioerr else .ok⟩

/-- A sink whose k-th write call is hit by a KeyboardInterrupt. -/
def kbSink (k : Nat) : Sink := ⟨fun n => if n = k then .kbint else .ok⟩

/-- Pending exception: the two low-level exceptions a write can raise, the
`SystemExit` that `exit()` raises, and the two lookup failures
(`KeyError` from a dictionary access or missing dimension, `ValueError`
from an impossible reshape). -/
inductive Fault where
  | ioerror
  | kbint
  | sysExit
  | keyError
  | valueError
deriving DecidableEq, Repr

/-- Observable effects of a (partial) render: the successful writes in
order, the warnings issued, and whether `sys.stdout.close()` /
`sys.stdout.flush()` was called. -/
structure Eff where
  out : List String
  warns : List String
  closed : Bool
  flushed : Bool
deriving DecidableEq, Repr

def Eff.nil : Eff := ⟨[], [], false, false⟩

def Eff.app (a b : Eff) : Eff :=
  ⟨a.out ++ b.out, a.warns ++ b.warns, a.closed || b.closed, a.flushed || b.flushed⟩

/-- Result of a render step: effects, the write counter after the step, and
the pending exception if one is propagating. -/
structure RRes where
  eff : Eff
  n : Nat
  fault : Option Fault
deriving DecidableEq, Repr

/-- A step that does nothing. -/
def pure0 (n : Nat) : RRes := ⟨Eff.nil, n, none⟩

/-- One `sys.stdout.write(s)` call against the sink. -/
def wr (sink : Sink) (s : String) (n : Nat) : RRes :=
  match sink.res n with
  | .ok => ⟨⟨[s], [], false, false⟩, n + 1, none⟩
  | .ioerr => ⟨Eff.nil, n + 1, some .ioerror⟩
  | .kbint => ⟨Eff.nil, n + 1, some .kbint⟩

/-- One `warnings.warn(msg)` call. -/
def warnE (msg : String) (n : Nat) : RRes := ⟨⟨[], [msg], false, false⟩, n, none⟩

/-- A raised exception that no handler has caught yet. -/
def raiseF (f : Fault) (n : Nat) : RRes := ⟨Eff.nil, n, some f⟩

/-- Sequencing: a pending exception skips the continuation. -/
def seqF (a : RRes) (k : Nat → RRes) : RRes :=
  match a.fault with
  | some _ => a
  | none => let b := k a.n
            ⟨a.eff.app b.eff, b.n, b.fault⟩

def indent8 : String := "        "

/-- Source lines 49-52: 4 spaces of extra indent for a group, none at top
level.  The recursion passes only `isgroup = True`, so this never exceeds
4 spaces at any depth. -/
def startindentOf (isgroup : Bool) : String := if isgroup then "    " else ""

/-- One dimension declaration (source lines 62-65); note the unlimited
branch ends in `" \n"` with no semicolon. -/
def dimLine (nm : String) (d : Dimension) : String :=
  if d.unlimited then
    nm ++ " = UNLIMITED // (" ++ toString d.size ++ " currently) \n"
  else
    nm ++ " = " ++ toString d.size ++ " ;\n"

/-- The dimensions loop of source lines 61-65. -/
def dimLines (sink : Sink) (si : String) : List (String × Dimension) → Nat → RRes
  | [], n => pure0 n
  | (nm, d) :: rest, n =>
    seqF (wr sink (si ++ indent8 ++ dimLine nm d) n) (dimLines sink si rest)

/-- The per-variable attribute loop of source lines 81-83. -/
def varAttrLines (sink : Sink) (si vn : String) : List (String × Value) → Nat → RRes
  | [], n => pure0 n
  | (pn, pv) :: rest, n =>
    seqF (wr sink (si ++ indent8 ++ indent8 ++ vn ++ ":" ++ pn ++ " = " ++ attrText pv ++ " ;\n") n)
      (varAttrLines sink si vn rest)

/-- The variable-declaration loop of source lines 72-83; an unmapped dtype
name raises KeyError out of the dictionary literal. -/
def varDecls (sink : Sink) (si : String) : List (String × Variable) → Nat → RRes
  | [], n => pure0 n
  | (vn, v) :: rest, n =>
    match varTypeMap v.dtypeName with
    | none => raiseF .keyError n
    | some vt =>
      seqF (wr sink (si ++ indent8 ++ vt ++ " " ++ vn ++ dimsDisplay v.dims ++ ";\n") n)
        (fun n => seqF (varAttrLines sink si vn v.attrs n) (varDecls sink si rest))

/-- The global-attribute loop of source lines 89-91. -/
def globalAttrLines (sink : Sink) (si : String) : List (String × Value) → Nat → RRes
  | [], n => pure0 n
  | (pn, pv) :: rest, n =>
    seqF (wr sink (si ++ indent8 ++ indent8 ++ ":" ++ pn ++ " = " ++ attrText pv ++ " ;\n") n)
      (globalAttrLines sink si rest)

/-- Warning text of source line 164 (`repr(e)` of the IOError kept
abstract). -/
def ioWarnMsg : String := "IOError; Typically from CTRL+C or exiting less"

/-- Warning text of source line 114. -/
def notAllMsg : String := "Not all specified variables were available"

/-- The full-index element loop of source lines 125-138.  The `formats`
lookup happens inside the loop body; the write is guarded by
`except IOError: sys.stdout.close(); exit()`. -/
def fullIndexLoop (sink : Sink) (si : String) (fp dp : Nat) (vn dtype mode : String)
    (shape : List Nat) : List (List Nat × Scalar) → Nat → RRes
  | [], n => pure0 n
  | (i, val) :: rest, n =>
    match formats fp dp dtype with
    | none => raiseF .keyError n
    | some efmt =>
      let array_str := si ++ "  " ++ scalarText efmt val ++
        (if i = shape.map (fun x => x - 1) then ";" else ",") ++
        " // " ++ vn ++ idDisplay mode i ++ " \n"
      match wr sink array_str n with
      | ⟨e, n2, some .ioerror⟩ => ⟨⟨e.out, e.warns, true, e.flushed⟩, n2, some .sysExit⟩
      | ⟨e, n2, some flt⟩ => ⟨e, n2, some flt⟩
      | ⟨e, n2, none⟩ =>
        seqF ⟨e, n2, none⟩ (fullIndexLoop sink si fp dp vn dtype mode shape rest)

/-- The reshaped row loop of source lines 149-165.  The two writes (the
wrapped row and the newline) are guarded by
`except IOError: warn(...); exit()`. -/
def reshapedLoop (sink : Sink) (si efmt : String) (numRows lineLen : Nat) :
    Nat → List (List Scalar) → Nat → RRes
  | _, [], n => pure0 n
  | rowi, row :: rest, n =>
    let array_str := rowStr efmt numRows rowi row
    match wr sink (fillGreedy lineLen (si ++ "  ") (si ++ "    ") array_str) n with
    | ⟨e, n2, some .ioerror⟩ => ⟨⟨e.out, e.warns ++ [ioWarnMsg], e.closed, e.flushed⟩, n2, some .sysExit⟩
    | ⟨e, n2, some flt⟩ => ⟨e, n2, some flt⟩
    | ⟨e, n2, none⟩ =>
      match wr sink "\n" n2 with
      | ⟨e2, n3, some .ioerror⟩ =>
        ⟨⟨e.out ++ e2.out, (e.warns ++ e2.warns) ++ [ioWarnMsg], e.closed || e2.closed, e.flushed || e2.flushed⟩, n3, some .sysExit⟩
      | ⟨e2, n3, some flt⟩ => ⟨e.app e2, n3, some flt⟩
      | ⟨e2, n3, none⟩ =>
        seqF ⟨e.app e2, n3, none⟩ (reshapedLoop sink si efmt numRows lineLen (rowi + 1) rest)

/-- Data emission for one variable (source lines 121-165): either the
full-index mode (after the mode-dictionary lookup at lines 122-123,
whose failure is a KeyError) or the reshaped mode (dimension lookup, the
reshape's ValueError check, the `formats` lookup, then the row loop). -/
def dataOneVar (sink : Sink) (si : String) (cfg : Cfg) (fdims : List (String × Dimension))
    (vn : String) (v : Variable) (n : Nat) : RRes :=
  match cfg.full_indices with
  | some mode =>
    if mode = "f" ∨ mode = "c" then
      fullIndexLoop sink si cfg.float_precision cfg.double_precision vn v.dtypeName mode
        v.shape ((allIndices v.shape).zip v.data) n
    else raiseF .keyError n
  | none =>
    match resolveSizes fdims v.dims with
    | none => raiseF .keyError n
    | some dimensions =>
      let shape := reshapedShape dimensions
      if v.data.length ≠ listProd shape then raiseF .valueError n
      else
        match formats cfg.float_precision cfg.double_precision v.dtypeName with
        | none => raiseF .keyError n
        | some efmt =>
          reshapedLoop sink si efmt (shape.headD 0) cfg.line_length 0
            (takeRows (shape.getLastD 0) (shape.headD 0) v.data) n

/-- The loop over the selected variables (source lines 118-165); the
`f.variables[var_name]` lookup and the unguarded `<var> =` write. -/
def dataVarLoop (sink : Sink) (si : String) (cfg : Cfg) (fdims : List (String × Dimension))
    (fvars : List (String × Variable)) : List String → Nat → RRes
  | [], n => pure0 n
  | vn :: rest, n =>
    match fvars.lookup vn with
    | none => raiseF .keyError n
    | some v =>
      seqF (wr sink (si ++ " " ++ vn ++ " =\n") n)
        (fun n => seqF (dataOneVar sink si cfg fdims vn v n)
          (dataVarLoop sink si cfg fdims fvars rest))

/-- The data section (source lines 105-165): the unguarded `data:` marker
write, the variable subsetting with its (inverted) warning condition at
lines 112-114, then the per-variable loop. -/
def dataSection (sink : Sink) (si : String) (cfg : Cfg) (fdims : List (String × Dimension))
    (fvars : List (String × Variable)) (n : Nat) : RRes :=
  seqF (wr sink ("\n\n" ++ si ++ "data:\n") n) (fun n =>
    let display_variables := displayVars (fvars.map (fun p => p.1)) cfg.varFilter
    seqF (if cfg.varFilter ≠ [] ∧ cfg.varFilter.length < display_variables.length then
            warnE notAllMsg n
          else pure0 n)
      (dataVarLoop sink si cfg fdims fvars display_variables))

/- The renderer (source lines 21-171).  Mirrors the write sequence: the
opening line (top level only), the dimensions section, the variables
section (marker only when variables exist), the global-properties section,
the group recursion, the data section (unless `header`) wrapped in
`except KeyboardInterrupt: sys.stdout.flush(); exit()`, and the unguarded
closing brace write, which a propagating exception skips. -/
mutual
def pncdump (sink : Sink) (f : Container) (cfg : Cfg) (n : Nat) : RRes :=
  match f with
  | .mk fileType fdims fvars fattrs hasGroups groups =>
    let si := startindentOf cfg.isgroup
    seqF (if cfg.isgroup then pure0 n else wr sink (fileType ++ " " ++ cfg.name ++ " \x7b\n") n) (fun n =>
    seqF (wr sink (si ++ "dimensions:\n") n) (fun n =>
    seqF (dimLines sink si fdims n) (fun n =>
    seqF (if 0 < fvars.length then wr sink ("\n" ++ si ++ "variables:\n") n else pure0 n) (fun n =>
    seqF (varDecls sink si fvars n) (fun n =>
    seqF (wr sink "\n\n// global properties:\n" n) (fun n =>
    seqF (globalAttrLines sink si fattrs n) (fun n =>
    seqF (if hasGroups then dumpGroups sink groups cfg n else pure0 n) (fun n =>
    seqF (if cfg.header then pure0 n
          else
            match dataSection sink si cfg fdims fvars n with
            | ⟨e, n2, some .kbint⟩ => ⟨⟨e.out, e.warns, e.closed, true⟩, n2, some .sysExit⟩
            | r => r) (fun n =>
    wr sink "\x7d\n" n)))))))))

def dumpGroups (sink : Sink) (gs : GroupList) (cfg : Cfg) (n : Nat) : RRes :=
  match gs with
  | .nil => pure0 n
  | .cons gname g rest =>
    seqF (wr sink (startindentOf cfg.isgroup ++ "group " ++ gname ++ ":\n") n) (fun n =>
    seqF (pncdump sink g cfg.asGroup n) (fun n =>
    dumpGroups sink rest cfg n))
end

/-- A whole render call, starting with write counter 0. -/
def runDump (sink : Sink) (f : Container) (cfg : Cfg) : RRes :=
  pncdump sink f cfg 0

/-- The writes a render performs on a sink that never fails. -/
def outLines (f : Container) (cfg : Cfg) : List String :=
  (runDump okSink f cfg).eff.out

/-- Shape `[2, 3]` int32 variable holding `[[1,2,3],[4,5,6]]`. -/
def varV23 : Variable :=
  ⟨"int32", ["t", "x"], [2, 3], [.i 1, .i 2, .i 3, .i 4, .i 5, .i 6], []⟩

/-- File with dimensions `t = 2`, `x = 3` and the one variable `v`. -/
def sample23 : Container :=
  .mk "File" [("t", ⟨2, false⟩), ("x", ⟨3, false⟩)] [("v", varV23)] [] false .nil

/-- Default configuration: reshaped data mode, no filter, no header flag. -/
def cfgBase : Cfg := ⟨"unknown", false, [], 80, none, 8, 16, false⟩

/-- Full-index c-mode configuration. -/
def cfgC : Cfg := ⟨"unknown", false, [], 80, some "c", 8, 16, false⟩

/-- Full-index f-mode configuration. -/
def cfgF : Cfg := ⟨"unknown", false, [], 80, some "f", 8, 16, false⟩

/-- Header-only configuration. -/
def cfgH : Cfg := ⟨"unknown", true, [], 80, none, 8, 16, false⟩

/-- Header-only configuration entered as a nested group. -/
def cfgHG : Cfg := ⟨"unknown", true, [], 80, none, 8, 16, true⟩

/-- Full configuration (with data section) entered as a nested group. -/
def cfgG : Cfg := ⟨"unknown", false, [], 80, none, 8, 16, true⟩

/-- Empty group. -/
def grpLeaf : Container := .mk "File" [] [] [] false .nil

/-- Group holding the nested group `g2`. -/
def grpMid : Container := .mk "File" [] [] [] true (.cons "g2" grpLeaf .nil)

/-- File holding `g1`, which holds `g2`: two levels of group nesting. -/
def nested2 : Container := .mk "File" [] [] [] true (.cons "g1" grpMid .nil)

/-- File with one variable `a` (for the variable-filter claims). -/
def sampleA : Container :=
  .mk "File" [("x", ⟨1, false⟩)] [("a", ⟨"int32", ["x"], [1], [.i 5], []⟩)] [] false .nil

/-- Filter configuration requesting `a` and the absent `b`. -/
def cfgAB : Cfg := ⟨"unknown", false, ["a", "b"], 80, none, 8, 16, false⟩

/-- File with a single unlimited dimension. -/
def sampleU : Container := .mk "File" [("u", ⟨3, true⟩)] [] [] false .nil

/-- File with one dimension and no variables. -/
def sampleNoVars : Container := .mk "File" [("x", ⟨3, false⟩)] [] [] false .nil

/-- File with an int16 variable (a dtype absent from both type tables). -/
def sampleI16 : Container :=
  .mk "File" [("x", ⟨1, false⟩)] [("s16", ⟨"int16", ["x"], [1], [.i 0], []⟩)] [] false .nil

/-- File with one 1-D int32 variable of two values (for the sink-failure
claims). -/
def sampleV2 : Container :=
  .mk "File" [("x", ⟨2, false⟩)] [("v", ⟨"int32", ["x"], [2], [.i 7, .i 9], []⟩)] [] false .nil

/-- A write whose text ends in space, opening brace, newline: the shape of the opening
declaration line and of no other write the renderer produces. -/
def looksLikeOpenLine (w : String) : Bool :=
  w.data.reverse.take 3 = ['\n', '\x7b', ' ']

/- Pure mirror of the renderer on a never-failing sink: the same write
texts as lists, used to reason about whole-render outputs.  The bridge
theorem `pncdump_ok` below proves the mirror exact for well-formed
containers. -/

def dimLinesP (si : String) (L : List (String × Dimension)) : List String :=
  L.map (fun p => si ++ indent8 ++ dimLine p.1 p.2)

def varAttrLinesP (si vn : String) (A : List (String × Value)) : List String :=
  A.map (fun p => si ++ indent8 ++ indent8 ++ vn ++ ":" ++ p.1 ++ " = " ++ attrText p.2 ++ " ;\n")

def varDeclsP (si : String) (L : List (String × Variable)) : List String :=
  L.flatMap (fun p =>
    (si ++ indent8 ++ (varTypeMap p.2.dtypeName).getD "" ++ " " ++ p.1 ++
        dimsDisplay p.2.dims ++ ";\n") :: varAttrLinesP si p.1 p.2.attrs)

def globalAttrLinesP (si : String) (A : List (String × Value)) : List String :=
  A.map (fun p => si ++ indent8 ++ indent8 ++ ":" ++ p.1 ++ " = " ++ attrText p.2 ++ " ;\n")

def fullIndexLinesP (si efmt vn mode : String) (shape : List Nat)
    (l : List (List Nat × Scalar)) : List String :=
  l.map (fun p => si ++ "  " ++ scalarText efmt p.2 ++
    (if p.1 = shape.map (fun x => x - 1) then ";" else ",") ++
    " // " ++ vn ++ idDisplay mode p.1 ++ " \n")

def reshapedLinesP (si efmt : String) (numRows lineLen : Nat) :
    Nat → List (List Scalar) → List String
  | _, [] => []
  | rowi, row :: rest =>
    fillGreedy lineLen (si ++ "  ") (si ++ "    ") (rowStr efmt numRows rowi row) ::
      "\n" :: reshapedLinesP si efmt numRows lineLen (rowi + 1) rest

def dataOneVarP (si : String) (cfg : Cfg) (fdims : List (String × Dimension))
    (vn : String) (v : Variable) : List String :=
  match cfg.full_indices with
  | some mode =>
    fullIndexLinesP si
      ((formats cfg.float_precision cfg.double_precision v.dtypeName).getD "") vn mode
      v.shape ((allIndices v.shape).zip v.data)
  | none =>
    let dimensions := (resolveSizes fdims v.dims).getD []
    let shape := reshapedShape dimensions
    reshapedLinesP si
      ((formats cfg.float_precision cfg.double_precision v.dtypeName).getD "")
      (shape.headD 0) cfg.line_length 0
      (takeRows (shape.getLastD 0) (shape.headD 0) v.data)

def dataVarLoopP (si : String) (cfg : Cfg) (fdims : List (String × Dimension))
    (fvars : List (String × Variable)) : List String → List String
  | [] => []
  | vn :: rest =>
    (si ++ " " ++ vn ++ " =\n") ::
      (dataOneVarP si cfg fdims vn ((fvars.lookup vn).getD ⟨"", [], [], [], []⟩) ++
        dataVarLoopP si cfg fdims fvars rest)

def dataSectionP (si : String) (cfg : Cfg) (fdims : List (String × Dimension))
    (fvars : List (String × Variable)) : List String :=
  ("\n\n" ++ si ++ "data:\n") ::
    dataVarLoopP si cfg fdims fvars (displayVars (fvars.map (fun p => p.1)) cfg.varFilter)

def warnOneP (cfg : Cfg) (fvars : List (String × Variable)) : List String :=
  if cfg.varFilter ≠ [] ∧
      cfg.varFilter.length < (displayVars (fvars.map (fun p => p.1)) cfg.varFilter).length then
    [notAllMsg]
  else []

mutual
def renderP (f : Container) (cfg : Cfg) : List String :=
  match f with
  | .mk fileType fdims fvars fattrs hasG groups =>
    let si := startindentOf cfg.isgroup
    (if cfg.isgroup then [] else [fileType ++ " " ++ cfg.name ++ " \x7b\n"]) ++
    ((si ++ "dimensions:\n") :: dimLinesP si fdims) ++
    (if 0 < fvars.length then ["\n" ++ si ++ "variables:\n"] else []) ++
    varDeclsP si fvars ++
    ("\n\n// global properties:\n" :: globalAttrLinesP si fattrs) ++
    (if hasG then groupsP groups cfg else []) ++
    (if cfg.header then [] else dataSectionP si cfg fdims fvars) ++
    ["\x7d\n"]
def groupsP (gs : GroupList) (cfg : Cfg) : List String :=
  match gs with
  | .nil => []
  | .cons gname g rest =>
    (startindentOf cfg.isgroup ++ "group " ++ gname ++ ":\n") ::
      (renderP g cfg.asGroup ++ groupsP rest cfg)
end

mutual
def renderWarnsP (f : Container) (cfg : Cfg) : List String :=
  match f with
  | .mk _ _ fvars _ hasG groups =>
    (if hasG then groupsWarnsP groups cfg else []) ++
      (if cfg.header then [] else warnOneP cfg fvars)
def groupsWarnsP (gs : GroupList) (cfg : Cfg) : List String :=
  match gs with
  | .nil => []
  | .cons _ g rest => renderWarnsP g cfg.asGroup ++ groupsWarnsP rest cfg
end

/-- Well-formedness of one variable against its container's dimensions:
both type tables know the dtype, all its dimension names resolve, and the
flat data has exactly the reshape target's size (the §3 invariants of the
specification). -/
def WFvar (fdims : List (String × Dimension)) (v : Variable) : Bool :=
  (varTypeMap v.dtypeName).isSome && (formats 0 0 v.dtypeName).isSome &&
  (resolveSizes fdims v.dims).isSome &&
  decide (v.data.length = listProd (reshapedShape ((resolveSizes fdims v.dims).getD [])))

mutual
def WFc : Container → Bool
  | .mk ft fdims fvars _ hasG groups =>
    decide (¬ '\n' ∈ ft.data) && fvars.all (fun p => WFvar fdims p.2) &&
      (if hasG then WFg groups else true)
def WFg : GroupList → Bool
  | .nil => true
  | .cons _ g rest => WFc g && WFg rest
end

/-- The `full_indices` argument is absent or one of the two mode strings
the dictionary at source lines 122-123 accepts. -/
def modeOK (cfg : Cfg) : Bool :=
  match cfg.full_indices with
  | none => true
  | some m => m = "f" || m = "c"

mutual
def groupCountC : Container → Nat
  | .mk _ _ _ _ hasG gs => if hasG then groupCountG gs else 0
def groupCountG : GroupList → Nat
  | .nil => 0
  | .cons _ g rest => 1 + groupCountC g + groupCountG rest
end

theorem takeRows_length (k r : Nat) (l : List Scalar) : (takeRows k r l).length = r := by
  induction r generalizing l with
  | zero => rfl
  | succ r ih => simp [takeRows, ih]

theorem takeRows_row_length (k r : Nat) (l : List Scalar) (hl : l.length = r * k) :
    ∀ c ∈ takeRows k r l, c.length = k := by
  induction r generalizing l with
  | zero => intro c hc; simp [takeRows] at hc
  | succ r ih =>
    intro c hc
    rw [takeRows] at hc
    rcases List.mem_cons.mp hc with h | h
    · subst h
      have : k ≤ l.length := by
        rw [hl]
        calc k = 1 * k := (Nat.one_mul k).symm
          _ ≤ (r + 1) * k := Nat.mul_le_mul_right k (by omega)
      simp [List.length_take]
      omega
    · exact ih (l.drop k) (by simp [List.length_drop, hl]; ring_nf; omega) c h

theorem takeRows_join (k r : Nat) (l : List Scalar) (hl : l.length = r * k) :
    (takeRows k r l).flatten = l := by
  induction r generalizing l with
  | zero =>
    have : l = [] := List.length_eq_zero.mp (by omega)
    simp [takeRows, this]
  | succ r ih =>
    rw [takeRows, List.flatten]
    rw [ih (l.drop k) (by simp [List.length_drop, hl]; ring_nf; omega)]
    exact List.take_append_drop k l

theorem listProd_dropLast (l : List Nat) (h : l ≠ []) :
    listProd l = listProd l.dropLast * l.getLastD 1 := by
  conv_lhs => rw [← List.dropLast_append_getLast h]
  rw [listProd, listProd, List.foldl_append]
  simp [List.getLastD_eq_getLast?, List.getLast?_eq_getLast l h]

theorem getLastD_irrel (l : List Nat) (h : l ≠ []) (d d' : Nat) :
    l.getLastD d = l.getLastD d' := by
  rw [List.getLastD_eq_getLast?, List.getLastD_eq_getLast?, List.getLast?_eq_getLast l h]
  rfl

theorem formats_isSome_any (fp dp : Nat) (t : String) :
    (formats fp dp t).isSome = (formats 0 0 t).isSome := by
  unfold formats
  split_ifs <;> rfl

theorem lookup_some_of_mem_keys (fvars : List (String × Variable)) (vn : String)
    (h : vn ∈ fvars.map (fun p => p.1)) :
    ∃ v, fvars.lookup vn = some v ∧ (vn, v) ∈ fvars := by
  induction fvars with
  | nil => simp at h
  | cons p rest ih =>
    obtain ⟨a, b⟩ := p
    by_cases hv : vn = a
    · subst hv
      exact ⟨b, by simp [List.lookup], List.mem_cons_self _ _⟩
    · rw [List.map_cons, List.mem_cons] at h
      rcases h with h | h
      · exact absurd h hv
      · rcases ih h with ⟨v, h1, h2⟩
        refine ⟨v, ?_, List.mem_cons_of_mem _ h2⟩
        have hb : (vn == a) = false := beq_eq_false_iff_ne.mpr hv
        simp [List.lookup, hb, h1]

theorem wr_ok (s : String) (n : Nat) :
    wr okSink s n = ⟨⟨[s], [], false, false⟩, n + 1, none⟩ := rfl

theorem dimLines_ok (si : String) (L : List (String × Dimension)) (n : Nat) :
    dimLines okSink si L n =
      ⟨⟨dimLinesP si L, [], false, false⟩, n + (dimLinesP si L).length, none⟩ := by
  induction L generalizing n with
  | nil => simp [dimLines, dimLinesP, pure0, Eff.nil]
  | cons p rest ih =>
    obtain ⟨nm, d⟩ := p
    simp [dimLines, dimLinesP, seqF, wr_ok, Eff.app, ih]
    omega

theorem varAttrLines_ok (si vn : String) (A : List (String × Value)) (n : Nat) :
    varAttrLines okSink si vn A n =
      ⟨⟨varAttrLinesP si vn A, [], false, false⟩, n + (varAttrLinesP si vn A).length, none⟩ := by
  induction A generalizing n with
  | nil => simp [varAttrLines, varAttrLinesP, pure0, Eff.nil]
  | cons p rest ih =>
    obtain ⟨pn, pv⟩ := p
    simp [varAttrLines, varAttrLinesP, seqF, wr_ok, Eff.app, ih]
    omega

theorem globalAttrLines_ok (si : String) (A : List (String × Value)) (n : Nat) :
    globalAttrLines okSink si A n =
      ⟨⟨globalAttrLinesP si A, [], false, false⟩, n + (globalAttrLinesP si A).length, none⟩ := by
  induction A generalizing n with
  | nil => simp [globalAttrLines, globalAttrLinesP, pure0, Eff.nil]
  | cons p rest ih =>
    obtain ⟨pn, pv⟩ := p
    simp [globalAttrLines, globalAttrLinesP, seqF, wr_ok, Eff.app, ih]
    omega

theorem varDecls_ok (si : String) (L : List (String × Variable)) (n : Nat)
    (h : ∀ p ∈ L, (varTypeMap p.2.dtypeName).isSome = true) :
    varDecls okSink si L n =
      ⟨⟨varDeclsP si L, [], false, false⟩, n + (varDeclsP si L).length, none⟩ := by
  induction L generalizing n with
  | nil => simp [varDecls, varDeclsP, pure0, Eff.nil]
  | cons p rest ih =>
    obtain ⟨vn, v⟩ := p
    obtain ⟨vt, hvt⟩ := Option.isSome_iff_exists.mp (h (vn, v) (List.mem_cons_self _ _))
    have ihr := fun m => ih m (fun q hq => h q (List.mem_cons_of_mem _ hq))
    simp [varDecls, varDeclsP, hvt, seqF, wr_ok, Eff.app, varAttrLines_ok, ihr]
    omega

theorem fullIndexLoop_ok (si : String) (fp dp : Nat) (vn dtype mode : String)
    (shape : List Nat) (l : List (List Nat × Scalar)) (n : Nat)
    (h : (formats fp dp dtype).isSome = true) :
    fullIndexLoop okSink si fp dp vn dtype mode shape l n =
      ⟨⟨fullIndexLinesP si ((formats fp dp dtype).getD "") vn mode shape l, [], false, false⟩,
       n + (fullIndexLinesP si ((formats fp dp dtype).getD "") vn mode shape l).length, none⟩ := by
  obtain ⟨efmt, he⟩ := Option.isSome_iff_exists.mp h
  induction l generalizing n with
  | nil => simp [fullIndexLoop, fullIndexLinesP, pure0, Eff.nil]
  | cons p rest ih =>
    obtain ⟨i, val⟩ := p
    simp [fullIndexLoop, fullIndexLinesP, he, seqF, wr_ok, Eff.app, ih]
    omega

theorem reshapedLoop_ok (si efmt : String) (numRows lineLen : Nat) (rowi : Nat)
    (rows : List (List Scalar)) (n : Nat) :
    reshapedLoop okSink si efmt numRows lineLen rowi rows n =
      ⟨⟨reshapedLinesP si efmt numRows lineLen rowi rows, [], false, false⟩,
       n + (reshapedLinesP si efmt numRows lineLen rowi rows).length, none⟩ := by
  induction rows generalizing rowi n with
  | nil => simp [reshapedLoop, reshapedLinesP, pure0, Eff.nil]
  | cons row rest ih =>
    simp [reshapedLoop, reshapedLinesP, seqF, wr_ok, Eff.app, ih]
    omega

theorem dataOneVar_ok (si : String) (cfg : Cfg) (fdims : List (String × Dimension))
    (vn : String) (v : Variable) (n : Nat)
    (hwf : WFvar fdims v = true) (hm : modeOK cfg = true) :
    dataOneVar okSink si cfg fdims vn v n =
      ⟨⟨dataOneVarP si cfg fdims vn v, [], false, false⟩,
       n + (dataOneVarP si cfg fdims vn v).length, none⟩ := by
  have hwf' := hwf
  simp only [WFvar, Bool.and_eq_true, decide_eq_true_eq] at hwf'
  obtain ⟨⟨⟨htm, hf0⟩, hrs⟩, hlen⟩ := hwf'
  have hfmt : (formats cfg.float_precision cfg.double_precision v.dtypeName).isSome = true := by
    rw [formats_isSome_any]; exact hf0
  cases hmode : cfg.full_indices with
  | some mode =>
    have hm' : mode = "f" ∨ mode = "c" := by
      simp [modeOK, hmode] at hm
      tauto
    simp [dataOneVar, dataOneVarP, hmode, hm', fullIndexLoop_ok _ _ _ _ _ _ _ _ _ hfmt]
  | none =>
    obtain ⟨szs, hszs⟩ := Option.isSome_iff_exists.mp hrs
    obtain ⟨efmt, hef⟩ := Option.isSome_iff_exists.mp hfmt
    have hlen' : v.data.length = listProd (reshapedShape szs) := by
      rw [hszs] at hlen
      simpa using hlen
    simp [dataOneVar, dataOneVarP, hmode, hszs, hef, hlen', reshapedLoop_ok]

theorem dataVarLoop_ok (si : String) (cfg : Cfg) (fdims : List (String × Dimension))
    (fvars : List (String × Variable)) (names : List String) (n : Nat)
    (h : ∀ vn ∈ names, ∃ v, fvars.lookup vn = some v ∧ WFvar fdims v = true)
    (hm : modeOK cfg = true) :
    dataVarLoop okSink si cfg fdims fvars names n =
      ⟨⟨dataVarLoopP si cfg fdims fvars names, [], false, false⟩,
       n + (dataVarLoopP si cfg fdims fvars names).length, none⟩ := by
  induction names generalizing n with
  | nil => simp [dataVarLoop, dataVarLoopP, pure0, Eff.nil]
  | cons vn rest ih =>
    obtain ⟨v, hl, hwfv⟩ := h vn (List.mem_cons_self _ _)
    have ihr := fun m => ih m (fun q hq => h q (List.mem_cons_of_mem _ hq))
    simp [dataVarLoop, dataVarLoopP, hl, seqF, wr_ok, Eff.app, ihr,
      fun m => dataOneVar_ok si cfg fdims vn v m hwfv hm]
    omega

theorem dataSection_ok (si : String) (cfg : Cfg) (fdims : List (String × Dimension))
    (fvars : List (String × Variable)) (n : Nat)
    (h : ∀ p ∈ fvars, WFvar fdims p.2 = true) (hm : modeOK cfg = true) :
    dataSection okSink si cfg fdims fvars n =
      ⟨⟨dataSectionP si cfg fdims fvars, warnOneP cfg fvars, false, false⟩,
       n + (dataSectionP si cfg fdims fvars).length, none⟩ := by
  have hnames : ∀ vn ∈ displayVars (fvars.map (fun p => p.1)) cfg.varFilter,
      ∃ v, fvars.lookup vn = some v ∧ WFvar fdims v = true := by
    intro vn hvn
    have hk : vn ∈ fvars.map (fun p => p.1) := List.mem_of_mem_filter hvn
    obtain ⟨v, h1, h2⟩ := lookup_some_of_mem_keys fvars vn hk
    exact ⟨v, h1, h (vn, v) h2⟩
  by_cases hw : cfg.varFilter ≠ [] ∧
      cfg.varFilter.length < (displayVars (fvars.map (fun p => p.1)) cfg.varFilter).length
  · simp [dataSection, dataSectionP, warnOneP, hw, seqF, wr_ok, warnE, Eff.app,
      fun m => dataVarLoop_ok si cfg fdims fvars _ m hnames hm]
    omega
  · simp [dataSection, dataSectionP, warnOneP, hw, seqF, wr_ok, warnE, Eff.app, pure0, Eff.nil,
      fun m => dataVarLoop_ok si cfg fdims fvars _ m hnames hm]
    omega

mutual
theorem pncdump_ok (f : Container) (cfg : Cfg) (n : Nat) (hwf : WFc f = true)
    (hm : (cfg.header || modeOK cfg) = true) :
    pncdump okSink f cfg n =
      ⟨⟨renderP f cfg, renderWarnsP f cfg, false, false⟩,
       n + (renderP f cfg).length, none⟩ := by
  match f with
  | .mk ft fdims fvars fattrs hasG groups =>
    simp only [WFc, Bool.and_eq_true, decide_eq_true_eq, List.all_eq_true] at hwf
    obtain ⟨⟨hft, hvars⟩, hgrp⟩ := hwf
    have hvd : ∀ p ∈ fvars, (varTypeMap p.2.dtypeName).isSome = true := by
      intro p hp
      have h2 := hvars p hp
      simp only [WFvar, Bool.and_eq_true] at h2
      exact h2.1.1.1
    have hmode : cfg.header = false → modeOK cfg = true := by
      intro hh
      rw [hh] at hm
      simpa using hm
    have hdg : ∀ m, hasG = true →
        dumpGroups okSink groups cfg m =
          ⟨⟨groupsP groups cfg, groupsWarnsP groups cfg, false, false⟩,
           m + (groupsP groups cfg).length, none⟩ := by
      intro m hG
      refine dumpGroups_ok groups cfg m ?_ hm
      rw [hG] at hgrp
      simpa using hgrp
    have hds : ∀ (s : String) m, cfg.header = false →
        dataSection okSink s cfg fdims fvars m =
          ⟨⟨dataSectionP s cfg fdims fvars, warnOneP cfg fvars, false, false⟩,
           m + (dataSectionP s cfg fdims fvars).length, none⟩ := by
      intro s m hh
      exact dataSection_ok s cfg fdims fvars m hvars (hmode hh)
    by_cases hgi : cfg.isgroup <;> by_cases hh : cfg.header <;>
      by_cases hG : hasG <;> by_cases hv : 0 < fvars.length <;>
      simp [pncdump, renderP, renderWarnsP, hgi, hh, hG, hv, seqF, wr_ok, pure0, Eff.nil, Eff.app,
        dimLines_ok, fun s m => varDecls_ok s fvars m hvd, globalAttrLines_ok, hdg, hds] <;>
      omega
theorem dumpGroups_ok (gs : GroupList) (cfg : Cfg) (n : Nat) (hwf : WFg gs = true)
    (hm : (cfg.header || modeOK cfg) = true) :
    dumpGroups okSink gs cfg n =
      ⟨⟨groupsP gs cfg, groupsWarnsP gs cfg, false, false⟩,
       n + (groupsP gs cfg).length, none⟩ := by
  match gs with
  | .nil => simp [dumpGroups, groupsP, groupsWarnsP, pure0, Eff.nil]
  | .cons gname g rest =>
    simp only [WFg, Bool.and_eq_true] at hwf
    obtain ⟨h1, h2⟩ := hwf
    have hmg : (cfg.asGroup.header || modeOK cfg.asGroup) = true := hm
    simp [dumpGroups, groupsP, groupsWarnsP, seqF, wr_ok, Eff.app,
      fun m => pncdump_ok g cfg.asGroup m h1 hmg,
      fun m => dumpGroups_ok rest cfg m h2 hm]
    omega
end

theorem take_append_short (p x : String) (k : Nat) (hk : k ≤ p.data.length) :
    (p ++ x).data.take k = p.data.take k := by
  rw [String.data_append]
  exact List.take_append_of_le_length hk

theorem rtake_append (x s : String) (k : Nat) (hk : k ≤ s.data.length) :
    (x ++ s).data.reverse.take k = s.data.reverse.take k := by
  rw [String.data_append, List.reverse_append]
  refine List.take_append_of_le_length ?_
  simpa using hk

theorem string_ne_of_head (p x b : String)
    (h : b.data.take p.data.length ≠ p.data) : p ++ x ≠ b := by
  intro he
  apply h
  rw [← he, String.data_append, List.take_left]

theorem string_ne_of_rtake (x s b : String) (k : Nat) (hk : k ≤ s.data.length)
    (h : b.data.reverse.take k ≠ s.data.reverse.take k) : x ++ s ≠ b := by
  intro he
  apply h
  rw [← he, rtake_append x s k hk]

theorem packLines_shape (width : Nat) (subi : List Char) (ws : List (List Char)) :
    ∀ cur, ∃ x rest, packLines width subi cur ws = (cur ++ x) :: rest := by
  induction ws with
  | nil => exact fun cur => ⟨[], [], by simp [packLines]⟩
  | cons w ws ih =>
    intro cur
    by_cases h : cur.length + 1 + w.length ≤ width
    · rcases ih (cur ++ ' ' :: w) with ⟨x, rest, hx⟩
      exact ⟨' ' :: w ++ x, rest, by simp [packLines, h, hx]⟩
    · exact ⟨[], packLines width subi (subi ++ w) ws, by simp [packLines, h]⟩

theorem packLines_last (width : Nat) (subi : List Char) :
    ∀ (ws : List (List Char)) (cur w0 : List Char), ws.getLast? = some w0 → w0 ≠ [] →
      ∃ ll, (packLines width subi cur ws).getLast? = some ll ∧ ll.getLast? = w0.getLast? := by
  intro ws
  induction ws with
  | nil => intro cur w0 hw _; simp at hw
  | cons w ws' ih =>
    intro cur w0 hw hne
    cases ws' with
    | nil =>
      have hww : w = w0 := by simpa using hw
      subst hww
      by_cases h : cur.length + 1 + w.length ≤ width
      · refine ⟨cur ++ ' ' :: w, by simp [packLines, h], ?_⟩
        rw [List.getLast?_append_of_ne_nil cur (by simp)]
        cases w with
        | nil => exact absurd rfl hne
        | cons a t => rfl
      · refine ⟨subi ++ w, by simp [packLines, h], ?_⟩
        exact List.getLast?_append_of_ne_nil subi hne
    | cons b m =>
      have hw' : (b :: m).getLast? = some w0 := hw
      by_cases h : cur.length + 1 + w.length ≤ width
      · rcases ih (cur ++ ' ' :: w) w0 hw' hne with ⟨ll, h1, h2⟩
        refine ⟨ll, ?_, h2⟩
        rw [packLines, if_pos h]
        exact h1
      · rcases ih (subi ++ w) w0 hw' hne with ⟨ll, h1, h2⟩
        refine ⟨ll, ?_, h2⟩
        rw [packLines, if_neg h]
        rw [List.getLast?_cons]
        rw [h1]
        simp [List.getLastD]

theorem splitWordsAux_last (c : Char) (hc : c ≠ ' ') :
    ∀ (l cur : List Char),
      ∃ w, (splitWordsAux cur (l ++ [c])).getLast? = some w ∧ w.getLast? = some c := by
  intro l
  induction l with
  | nil =>
    intro cur
    refine ⟨(c :: cur).reverse, ?_, ?_⟩
    · simp [splitWordsAux, hc]
    · rw [List.getLast?_reverse]
      rfl
  | cons a l' ih =>
    intro cur
    by_cases ha : a = ' '
    · rcases ih [] with ⟨w, h1, h2⟩
      by_cases hcur : cur = []
      · refine ⟨w, ?_, h2⟩
        simpa [splitWordsAux, ha, hcur] using h1
      · refine ⟨w, ?_, h2⟩
        have hne : splitWordsAux [] (l' ++ [c]) ≠ [] := by
          intro h0
          rw [h0] at h1
          simp at h1
        rw [show splitWordsAux cur ((a :: l') ++ [c]) =
            cur.reverse :: splitWordsAux [] (l' ++ [c]) by simp [splitWordsAux, ha, hcur]]
        rw [List.getLast?_cons, h1]
        simp [List.getLastD]
    · rcases ih (a :: cur) with ⟨w, h1, h2⟩
      refine ⟨w, ?_, h2⟩
      simpa [splitWordsAux, ha] using h1

theorem intercalate_head (sep a : List Char) (l : List (List Char)) :
    ∃ y, List.intercalate sep (a :: l) = a ++ y := by
  cases l with
  | nil => exact ⟨[], by simp [List.intercalate, List.intersperse]⟩
  | cons b m =>
    refine ⟨sep ++ List.intercalate sep (b :: m), ?_⟩
    simp [List.intercalate, List.intersperse]

theorem intercalate_last (sep : List Char) :
    ∀ (l : List (List Char)) (a ll : List Char), (a :: l).getLast? = some ll → ll ≠ [] →
      (List.intercalate sep (a :: l)).getLast? = ll.getLast? := by
  intro l
  induction l with
  | nil =>
    intro a ll h hne
    have haa : a = ll := by simpa using h
    subst haa
    simp [List.intercalate, List.intersperse]
  | cons b m ih =>
    intro a ll h hne
    have h' : (b :: m).getLast? = some ll := h
    have hmain := ih b ll h' hne
    have hnn : List.intercalate sep (b :: m) ≠ [] := by
      intro h0
      rw [h0] at hmain
      have := List.getLast?_isSome.mpr hne
      rw [← hmain] at this
      simp at this
    rw [show List.intercalate sep (a :: b :: m) =
        a ++ (sep ++ List.intercalate sep (b :: m)) by simp [List.intercalate, List.intersperse]]
    rw [List.getLast?_append_of_ne_nil a (by simp [hnn])]
    rw [List.getLast?_append_of_ne_nil sep hnn]
    exact hmain

theorem fillGreedy_shape (width : Nat) (ii subi t : String) :
    fillGreedy width ii subi t = "" ∨ ∃ x : String, fillGreedy width ii subi t = ii ++ x := by
  unfold fillGreedy
  cases hs : splitWordsAux [] t.data with
  | nil => exact Or.inl rfl
  | cons w ws =>
    right
    dsimp only
    rcases packLines_shape width subi.data ws (ii.data ++ w) with ⟨x, rest, hx⟩
    rw [hx]
    rcases intercalate_head ['\n'] ((ii.data ++ w) ++ x) rest with ⟨y, hy⟩
    refine ⟨⟨w ++ x ++ y⟩, ?_⟩
    apply String.ext
    rw [String.data_append]
    show List.intercalate ['\n'] (((ii.data ++ w) ++ x) :: rest) = ii.data ++ (w ++ x ++ y)
    rw [hy]
    simp

theorem fillGreedy_last (width : Nat) (ii subi t : String) (pre : List Char) (c : Char)
    (hc : c ≠ ' ') (ht : t.data = pre ++ [c]) :
    (fillGreedy width ii subi t).data.getLast? = some c := by
  unfold fillGreedy
  rw [ht]
  rcases splitWordsAux_last c hc pre [] with ⟨w0, h1, h2⟩
  cases hs : splitWordsAux [] (pre ++ [c]) with
  | nil =>
    rw [hs] at h1
    simp at h1
  | cons w ws =>
    rw [hs] at h1
    have hw0ne : w0 ≠ [] := by
      intro h0
      rw [h0] at h2
      simp at h2
    show (List.intercalate ['\n'] (packLines width subi.data (ii.data ++ w) ws)).getLast? = some c
    cases ws with
    | nil =>
      have hww : w = w0 := by simpa using h1
      subst hww
      show (List.intercalate ['\n'] [ii.data ++ w]).getLast? = some c
      rw [show List.intercalate ['\n'] [ii.data ++ w] = ii.data ++ w by
        simp [List.intercalate, List.intersperse]]
      rw [List.getLast?_append_of_ne_nil ii.data hw0ne]
      exact h2
    | cons b m =>
      have h1' : (b :: m).getLast? = some w0 := h1
      rcases packLines_last width subi.data (b :: m) (ii.data ++ w) w0 h1' hw0ne with ⟨ll, hl1, hl2⟩
      have hllne : ll ≠ [] := by
        intro h0
        rw [h0] at hl2
        rw [h2] at hl2
        simp at hl2
      rcases packLines_shape width subi.data (b :: m) (ii.data ++ w) with ⟨x, rest, hx⟩
      rw [hx] at hl1 ⊢
      rw [intercalate_last ['\n'] rest ((ii.data ++ w) ++ x) ll hl1 hllne, hl2, h2]

theorem count_zero_of_all_ne (w : String) (L : List String) (h : ∀ x ∈ L, x ≠ w) :
    L.count w = 0 :=
  List.count_eq_zero.mpr (fun hm => h w hm rfl)

theorem head_of_take2 (l : List Char) (a b : Char) (h : l.take 2 = [a, b]) :
    l.head? = some a := by
  cases l with
  | nil => simp at h
  | cons x t =>
    simp [List.take] at h
    simp [h.1]

theorem mem_dimLinesP (si : String) (L : List (String × Dimension)) (w : String)
    (hw : w ∈ dimLinesP si L) :
    ∃ a b : String, (w = a ++ " ;\n" ∨ w = a ++ " currently) \n") ∧
      w = (si ++ indent8) ++ b := by
  simp only [dimLinesP, List.mem_map] at hw
  obtain ⟨⟨nm, d⟩, hmem, rfl⟩ := hw
  by_cases hu : d.unlimited
  · refine ⟨si ++ indent8 ++ nm ++ " = UNLIMITED // (" ++ toString d.size, dimLine nm d,
      Or.inr ?_, by simp [String.append_assoc]⟩
    simp [dimLine, hu, String.append_assoc]
  · refine ⟨si ++ indent8 ++ nm ++ " = " ++ toString d.size, dimLine nm d,
      Or.inl ?_, by simp [String.append_assoc]⟩
    simp [dimLine, hu, String.append_assoc]

theorem mem_varAttrLinesP (si vn : String) (A : List (String × Value)) (w : String)
    (hw : w ∈ varAttrLinesP si vn A) :
    ∃ a b : String, w = a ++ " ;\n" ∧ w = (si ++ indent8) ++ b := by
  simp only [varAttrLinesP, List.mem_map] at hw
  obtain ⟨⟨pn, pv⟩, hmem, rfl⟩ := hw
  exact ⟨si ++ indent8 ++ indent8 ++ vn ++ ":" ++ pn ++ " = " ++ attrText pv,
    indent8 ++ vn ++ ":" ++ pn ++ " = " ++ attrText pv ++ " ;\n",
    by simp [String.append_assoc], by simp [String.append_assoc]⟩

theorem mem_varDeclsP (si : String) (L : List (String × Variable)) (w : String)
    (hw : w ∈ varDeclsP si L) :
    ∃ a b : String, (w = a ++ ";\n" ∨ w = a ++ " ;\n") ∧ w = (si ++ indent8) ++ b := by
  simp only [varDeclsP, List.mem_flatMap] at hw
  obtain ⟨⟨vn, v⟩, hmem, hin⟩ := hw
  rcases List.mem_cons.mp hin with h | h
  · subst h
    exact ⟨si ++ indent8 ++ (varTypeMap v.dtypeName).getD "" ++ " " ++ vn ++ dimsDisplay v.dims,
      (varTypeMap v.dtypeName).getD "" ++ " " ++ vn ++ dimsDisplay v.dims ++ ";\n",
      Or.inl (by simp [String.append_assoc]), by simp [String.append_assoc]⟩
  · obtain ⟨a, b, h1, h2⟩ := mem_varAttrLinesP si vn v.attrs w h
    exact ⟨a, b, Or.inr h1, h2⟩

theorem mem_globalAttrLinesP (si : String) (A : List (String × Value)) (w : String)
    (hw : w ∈ globalAttrLinesP si A) :
    ∃ a b : String, w = a ++ " ;\n" ∧ w = (si ++ indent8) ++ b := by
  simp only [globalAttrLinesP, List.mem_map] at hw
  obtain ⟨⟨pn, pv⟩, hmem, rfl⟩ := hw
  exact ⟨si ++ indent8 ++ indent8 ++ ":" ++ pn ++ " = " ++ attrText pv,
    indent8 ++ ":" ++ pn ++ " = " ++ attrText pv ++ " ;\n",
    by simp [String.append_assoc], by simp [String.append_assoc]⟩

theorem mem_fullIndexLinesP (si efmt vn mode : String) (shape : List Nat)
    (l : List (List Nat × Scalar)) (w : String) (hw : w ∈ fullIndexLinesP si efmt vn mode shape l) :
    ∃ a b : String, w = a ++ " \n" ∧ w = (si ++ "  ") ++ b := by
  simp only [fullIndexLinesP, List.mem_map] at hw
  obtain ⟨⟨i, val⟩, hmem, rfl⟩ := hw
  exact ⟨si ++ "  " ++ scalarText efmt val ++
      (if i = shape.map (fun x => x - 1) then ";" else ",") ++ " // " ++ vn ++ idDisplay mode i,
    scalarText efmt val ++ (if i = shape.map (fun x => x - 1) then ";" else ",") ++
      " // " ++ vn ++ idDisplay mode i ++ " \n",
    by simp [String.append_assoc], by simp [String.append_assoc]⟩

theorem mem_reshapedLinesP (si efmt : String) (numRows lineLen : Nat) (rowi : Nat)
    (rows : List (List Scalar)) (w : String)
    (hw : w ∈ reshapedLinesP si efmt numRows lineLen rowi rows) :
    w = "\n" ∨ ∃ ri row, w = fillGreedy lineLen (si ++ "  ") (si ++ "    ") (rowStr efmt numRows ri row) := by
  induction rows generalizing rowi with
  | nil => simp [reshapedLinesP] at hw
  | cons row rest ih =>
    rcases List.mem_cons.mp hw with h | h
    · exact Or.inr ⟨rowi, row, h⟩
    · rcases List.mem_cons.mp h with h2 | h2
      · exact Or.inl h2
      · exact ih (rowi + 1) h2

theorem rowStr_data (efmt : String) (numRows rowi : Nat) (row : List Scalar) :
    ∃ pre c, (rowStr efmt numRows rowi row).data = pre ++ [c] ∧ (c = ';' ∨ c = ',') := by
  by_cases h : rowi = numRows - 1
  · exact ⟨(String.intercalate ", " (row.map (scalarText efmt))).data, ';',
      by simp [rowStr, h, String.data_append], Or.inl rfl⟩
  · exact ⟨(String.intercalate ", " (row.map (scalarText efmt))).data, ',',
      by simp [rowStr, h, String.data_append], Or.inr rfl⟩

theorem fill_of_rowStr (si efmt : String) (numRows lineLen ri : Nat) (row : List Scalar) :
    (∃ c, (fillGreedy lineLen (si ++ "  ") (si ++ "    ") (rowStr efmt numRows ri row)).data.getLast?
        = some c ∧ (c = ';' ∨ c = ',')) ∧
    ∃ b : String, fillGreedy lineLen (si ++ "  ") (si ++ "    ") (rowStr efmt numRows ri row)
        = (si ++ "  ") ++ b := by
  obtain ⟨pre, c, hdata, hc⟩ := rowStr_data efmt numRows ri row
  have hcs : c ≠ ' ' := by rcases hc with rfl | rfl <;> decide
  have hlast := fillGreedy_last lineLen (si ++ "  ") (si ++ "    ") _ pre c hcs hdata
  refine ⟨⟨c, hlast, hc⟩, ?_⟩
  rcases fillGreedy_shape lineLen (si ++ "  ") (si ++ "    ") (rowStr efmt numRows ri row) with h | h
  · rw [h] at hlast
    simp at hlast
  · exact h

theorem mem_dataOneVarP (si : String) (cfg : Cfg) (fdims : List (String × Dimension))
    (vn : String) (v : Variable) (w : String) (hw : w ∈ dataOneVarP si cfg fdims vn v) :
    w = "\n" ∨
    (∃ a b : String, w = a ++ " \n" ∧ w = (si ++ "  ") ++ b) ∨
    ((∃ c, w.data.getLast? = some c ∧ (c = ';' ∨ c = ',')) ∧
      ∃ b : String, w = (si ++ "  ") ++ b) := by
  unfold dataOneVarP at hw
  cases hmode : cfg.full_indices with
  | some mode =>
    rw [hmode] at hw
    exact Or.inr (Or.inl (mem_fullIndexLinesP _ _ _ _ _ _ w hw))
  | none =>
    rw [hmode] at hw
    rcases mem_reshapedLinesP _ _ _ _ _ _ w hw with h | ⟨ri, row, rfl⟩
    · exact Or.inl h
    · obtain ⟨h1, h2⟩ := fill_of_rowStr si _ _ cfg.line_length ri row
      exact Or.inr (Or.inr ⟨h1, h2⟩)

theorem mem_dataVarLoopP (si : String) (cfg : Cfg) (fdims : List (String × Dimension))
    (fvars : List (String × Variable)) (names : List String) (w : String)
    (hw : w ∈ dataVarLoopP si cfg fdims fvars names) :
    (∃ a b : String, w = a ++ " =\n" ∧ w = (si ++ " ") ++ b) ∨
    w = "\n" ∨
    (∃ a b : String, w = a ++ " \n" ∧ w = (si ++ "  ") ++ b) ∨
    ((∃ c, w.data.getLast? = some c ∧ (c = ';' ∨ c = ',')) ∧
      ∃ b : String, w = (si ++ "  ") ++ b) := by
  induction names with
  | nil => simp [dataVarLoopP] at hw
  | cons vn rest ih =>
    rcases List.mem_cons.mp hw with h | h
    · subst h
      exact Or.inl ⟨si ++ " " ++ vn, vn ++ " =\n",
        by simp [String.append_assoc], by
          show si ++ " " ++ vn ++ " =\n" = si ++ " " ++ (vn ++ " =\n")
          simp [String.append_assoc]⟩
    · rcases List.mem_append.mp h with h2 | h2
      · rcases mem_dataOneVarP si cfg fdims vn _ w h2 with h3 | h3 | h3
        · exact Or.inr (Or.inl h3)
        · exact Or.inr (Or.inr (Or.inl h3))
        · exact Or.inr (Or.inr (Or.inr h3))
      · exact ih h2

theorem mem_dataSectionP (si : String) (cfg : Cfg) (fdims : List (String × Dimension))
    (fvars : List (String × Variable)) (w : String)
    (hw : w ∈ dataSectionP si cfg fdims fvars) :
    w = "\n\n" ++ si ++ "data:\n" ∨
    (∃ a b : String, w = a ++ " =\n" ∧ w = (si ++ " ") ++ b) ∨
    w = "\n" ∨
    (∃ a b : String, w = a ++ " \n" ∧ w = (si ++ "  ") ++ b) ∨
    ((∃ c, w.data.getLast? = some c ∧ (c = ';' ∨ c = ',')) ∧
      ∃ b : String, w = (si ++ "  ") ++ b) := by
  rcases List.mem_cons.mp hw with h | h
  · exact Or.inl h
  · rcases mem_dataVarLoopP si cfg fdims fvars _ w h with h2 | h2 | h2 | h2
    · exact Or.inr (Or.inl h2)
    · exact Or.inr (Or.inr (Or.inl h2))
    · exact Or.inr (Or.inr (Or.inr (Or.inl h2)))
    · exact Or.inr (Or.inr (Or.inr (Or.inr h2)))

theorem looksLikeOpen_false_of_last (w : String) (c : Char) (h : w.data.getLast? = some c)
    (hc : c ≠ '\n') : looksLikeOpenLine w = false := by
  simp only [looksLikeOpenLine, decide_eq_false_iff_not]
  intro hp
  have h3 : w.data.reverse.head? = some '\n' := by
    cases hr : w.data.reverse with
    | nil => rw [hr] at hp; simp at hp
    | cons a t =>
      rw [hr] at hp
      simp [List.take] at hp
      simp [hp.1]
  rw [List.head?_reverse] at h3
  rw [h] at h3
  exact hc (by injection h3)

theorem looksLikeOpen_false_of_rtake2 (w : String) (x y : Char)
    (h : w.data.reverse.take 2 = [x, y]) (hy : y ≠ '\x7b') : looksLikeOpenLine w = false := by
  simp only [looksLikeOpenLine, decide_eq_false_iff_not]
  intro hp
  have h2 : w.data.reverse.take 2 = ['\n', '\x7b'] := by
    have := congrArg (List.take 2) hp
    rw [List.take_take] at this
    simpa using this
  rw [h] at h2
  exact hy (by injection h2 with h3 h4; injection h4 with h5 h6)

theorem looksLikeOpen_false_of_suffix (a s : String) (hk : 2 ≤ s.data.length)
    (x y : Char) (hs : s.data.reverse.take 2 = [x, y]) (hy : y ≠ '\x7b') :
    looksLikeOpenLine (a ++ s) = false := by
  refine looksLikeOpen_false_of_rtake2 _ x y ?_ hy
  rw [rtake_append a s 2 hk]
  exact hs

mutual
theorem renderP_count_dims (f : Container) (cfg : Cfg) (hg : cfg.isgroup = true)
    (hh : cfg.header = true) :
    (renderP f cfg).count "    dimensions:\n" = 1 + groupCountC f ∧
    (renderP f cfg).count "        dimensions:\n" = 0 := by
  match f with
  | .mk ft fdims fvars fattrs hasG groups =>
    have hsi : startindentOf cfg.isgroup = "    " := by rw [hg]; rfl
    have hdim : ∀ m : String, m = "    dimensions:\n" ∨ m = "        dimensions:\n" →
        (dimLinesP "    " fdims).count m = 0 ∧ (varDeclsP "    " fvars).count m = 0 ∧
        (globalAttrLinesP "    " fattrs).count m = 0 := by
      intro m hm
      refine ⟨count_zero_of_all_ne _ _ ?_, count_zero_of_all_ne _ _ ?_,
        count_zero_of_all_ne _ _ ?_⟩
      · intro x hx
        obtain ⟨a, b, _, hpre⟩ := mem_dimLinesP _ _ _ hx
        rw [hpre]
        rcases hm with rfl | rfl
        · exact string_ne_of_head ("    " ++ indent8) b _ (by decide)
        · exact string_ne_of_head ("    " ++ indent8) b _ (by decide)
      · intro x hx
        obtain ⟨a, b, _, hpre⟩ := mem_varDeclsP _ _ _ hx
        rw [hpre]
        rcases hm with rfl | rfl
        · exact string_ne_of_head ("    " ++ indent8) b _ (by decide)
        · exact string_ne_of_head ("    " ++ indent8) b _ (by decide)
      · intro x hx
        obtain ⟨a, b, _, hpre⟩ := mem_globalAttrLinesP _ _ _ hx
        rw [hpre]
        rcases hm with rfl | rfl
        · exact string_ne_of_head ("    " ++ indent8) b _ (by decide)
        · exact string_ne_of_head ("    " ++ indent8) b _ (by decide)
    have h4 := hdim "    dimensions:\n" (Or.inl rfl)
    have h8 := hdim "        dimensions:\n" (Or.inr rfl)
    have hgc : (if hasG then groupsP groups cfg else []).count "    dimensions:\n" =
        (if hasG then groupCountG groups else 0) ∧
        (if hasG then groupsP groups cfg else []).count "        dimensions:\n" = 0 := by
      by_cases hG : hasG
      · simp only [hG, if_pos]
        exact groupsP_count_dims groups cfg hg hh
      · simp [hG]
    have e1 : (("    " : String) ++ "dimensions:\n") = "    dimensions:\n" := by decide
    have e2 : ¬ (("\n" : String) ++ "    " ++ "variables:\n") = "    dimensions:\n" := by decide
    have e3 : ¬ ("\n\n// global properties:\n" : String) = "    dimensions:\n" := by decide
    have e4 : ¬ ("\x7d\n" : String) = "    dimensions:\n" := by decide
    have e5 : ¬ (("    " : String) ++ "dimensions:\n") = "        dimensions:\n" := by decide
    have e6 : ¬ (("\n" : String) ++ "    " ++ "variables:\n") = "        dimensions:\n" := by decide
    have e7 : ¬ ("\n\n// global properties:\n" : String) = "        dimensions:\n" := by decide
    have e8 : ¬ ("\x7d\n" : String) = "        dimensions:\n" := by decide
    constructor
    · simp [renderP, startindentOf, hg, hh, List.count_append, List.count_cons, beq_iff_eq,
        h4.1, h4.2.1, h4.2.2, hgc.1, groupCountC, e1, e2, e3, e4]
      by_cases hv : 0 < fvars.length <;> simp [hv, e1, e2] <;> omega
    · simp [renderP, startindentOf, hg, hh, List.count_append, List.count_cons, beq_iff_eq,
        h8.1, h8.2.1, h8.2.2, hgc.2, groupCountC, e5, e6, e7, e8]
      by_cases hv : 0 < fvars.length <;> simp [hv, e5, e6]
theorem groupsP_count_dims (gs : GroupList) (cfg : Cfg) (hg : cfg.isgroup = true)
    (hh : cfg.header = true) :
    (groupsP gs cfg).count "    dimensions:\n" = groupCountG gs ∧
    (groupsP gs cfg).count "        dimensions:\n" = 0 := by
  match gs with
  | .nil => simp [groupsP, groupCountG]
  | .cons gname g rest =>
    have hsi : startindentOf cfg.isgroup = "    " := by rw [hg]; rfl
    have hga : cfg.asGroup.isgroup = true := rfl
    have hha : cfg.asGroup.header = true := hh
    have hsub := renderP_count_dims g cfg.asGroup hga hha
    have hrest := groupsP_count_dims rest cfg hg hh
    have hmark : ∀ m : String, m = "    dimensions:\n" ∨ m = "        dimensions:\n" →
        (startindentOf cfg.isgroup ++ "group " ++ gname ++ ":\n") ≠ m := by
      intro m hm
      rw [hsi]
      have heq : "    " ++ "group " ++ gname ++ ":\n" =
          ("    " ++ "group ") ++ (gname ++ ":\n") := by
        simp [String.append_assoc]
      rw [heq]
      rcases hm with rfl | rfl
      · exact string_ne_of_head ("    " ++ "group ") (gname ++ ":\n") _ (by decide)
      · exact string_ne_of_head ("    " ++ "group ") (gname ++ ":\n") _ (by decide)
    constructor
    · simp [groupsP, List.count_append, List.count_cons, groupCountG, hsub.1, hrest.1,
        hmark "    dimensions:\n" (Or.inl rfl)]
    · simp [groupsP, List.count_append, List.count_cons, groupCountG, hsub.2, hrest.2,
        hmark "        dimensions:\n" (Or.inr rfl)]
end

theorem countP_zero_of_all_false (p : String → Bool) (L : List String)
    (h : ∀ x ∈ L, p x = false) : L.countP p = 0 :=
  List.countP_eq_zero.mpr (fun a ha => by simp [h a ha])

theorem headerLines_no_brace (fdims : List (String × Dimension))
    (fvars : List (String × Variable)) (fattrs : List (String × Value)) :
    (∀ x ∈ dimLinesP "    " fdims, x ≠ "\x7d\n" ∧ looksLikeOpenLine x = false) ∧
    (∀ x ∈ varDeclsP "    " fvars, x ≠ "\x7d\n" ∧ looksLikeOpenLine x = false) ∧
    (∀ x ∈ globalAttrLinesP "    " fattrs, x ≠ "\x7d\n" ∧ looksLikeOpenLine x = false) := by
  refine ⟨?_, ?_, ?_⟩
  · intro x hx
    obtain ⟨a, b, hab, hpre⟩ := mem_dimLinesP _ _ _ hx
    constructor
    · rw [hpre]
      exact string_ne_of_head ("    " ++ indent8) b _ (by decide)
    · rcases hab with rfl | rfl
      · exact looksLikeOpen_false_of_suffix a " ;\n" (by decide) '\n' ';' (by decide) (by decide)
      · exact looksLikeOpen_false_of_suffix a " currently) \n" (by decide) '\n' ' '
          (by decide) (by decide)
  · intro x hx
    obtain ⟨a, b, hab, hpre⟩ := mem_varDeclsP _ _ _ hx
    constructor
    · rw [hpre]
      exact string_ne_of_head ("    " ++ indent8) b _ (by decide)
    · rcases hab with rfl | rfl
      · exact looksLikeOpen_false_of_suffix a ";\n" (by decide) '\n' ';' (by decide) (by decide)
      · exact looksLikeOpen_false_of_suffix a " ;\n" (by decide) '\n' ';' (by decide) (by decide)
  · intro x hx
    obtain ⟨a, b, hab, hpre⟩ := mem_globalAttrLinesP _ _ _ hx
    constructor
    · rw [hpre]
      exact string_ne_of_head ("    " ++ indent8) b _ (by decide)
    · rw [hab]
      exact looksLikeOpen_false_of_suffix a " ;\n" (by decide) '\n' ';' (by decide) (by decide)

theorem dataLines_no_brace (cfg : Cfg) (fdims : List (String × Dimension))
    (fvars : List (String × Variable)) :
    ∀ x ∈ dataSectionP "    " cfg fdims fvars, x ≠ "\x7d\n" ∧ looksLikeOpenLine x = false := by
  intro x hx
  rcases mem_dataSectionP _ _ _ _ _ hx with h | ⟨a, b, h1, h2⟩ | h | ⟨a, b, h1, h2⟩ | ⟨⟨c, hc1, hc2⟩, b, h2⟩
  · subst h
    exact ⟨by decide, by decide⟩
  · constructor
    · rw [h2]
      exact string_ne_of_head ("    " ++ " ") b _ (by decide)
    · rw [h1]
      exact looksLikeOpen_false_of_suffix a " =\n" (by decide) '\n' '=' (by decide) (by decide)
  · subst h
    exact ⟨by decide, by decide⟩
  · constructor
    · rw [h2]
      exact string_ne_of_head ("    " ++ "  ") b _ (by decide)
    · rw [h1]
      exact looksLikeOpen_false_of_suffix a " \n" (by decide) '\n' ' ' (by decide) (by decide)
  · constructor
    · rw [h2]
      exact string_ne_of_head ("    " ++ "  ") b _ (by decide)
    · refine looksLikeOpen_false_of_last x c hc1 ?_
      rcases hc2 with rfl | rfl <;> decide

mutual
theorem renderP_count_braces (f : Container) (cfg : Cfg) (hg : cfg.isgroup = true) :
    (renderP f cfg).count "\x7d\n" = 1 + groupCountC f ∧
    (renderP f cfg).countP looksLikeOpenLine = 0 := by
  match f with
  | .mk ft fdims fvars fattrs hasG groups =>
    obtain ⟨hd1, hd2, hd3⟩ := headerLines_no_brace fdims fvars fattrs
    have hdata := dataLines_no_brace cfg fdims fvars
    have hgc : ((if hasG then groupsP groups cfg else []).count "\x7d\n" =
        (if hasG then groupCountG groups else 0)) ∧
        (if hasG then groupsP groups cfg else []).countP looksLikeOpenLine = 0 := by
      by_cases hG : hasG
      · simp only [hG, if_pos]
        exact groupsP_count_braces groups cfg hg
      · simp [hG]
    have cd1 : (dimLinesP "    " fdims).count "\x7d\n" = 0 :=
      count_zero_of_all_ne _ _ (fun x hx => (hd1 x hx).1)
    have cd2 : (varDeclsP "    " fvars).count "\x7d\n" = 0 :=
      count_zero_of_all_ne _ _ (fun x hx => (hd2 x hx).1)
    have cd3 : (globalAttrLinesP "    " fattrs).count "\x7d\n" = 0 :=
      count_zero_of_all_ne _ _ (fun x hx => (hd3 x hx).1)
    have cdd : (dataSectionP "    " cfg fdims fvars).count "\x7d\n" = 0 :=
      count_zero_of_all_ne _ _ (fun x hx => (hdata x hx).1)
    have pd1 : (dimLinesP "    " fdims).countP looksLikeOpenLine = 0 :=
      countP_zero_of_all_false _ _ (fun x hx => (hd1 x hx).2)
    have pd2 : (varDeclsP "    " fvars).countP looksLikeOpenLine = 0 :=
      countP_zero_of_all_false _ _ (fun x hx => (hd2 x hx).2)
    have pd3 : (globalAttrLinesP "    " fattrs).countP looksLikeOpenLine = 0 :=
      countP_zero_of_all_false _ _ (fun x hx => (hd3 x hx).2)
    have pdd : (dataSectionP "    " cfg fdims fvars).countP looksLikeOpenLine = 0 :=
      countP_zero_of_all_false _ _ (fun x hx => (hdata x hx).2)
    have e1 : ¬ (("    " : String) ++ "dimensions:\n") = "\x7d\n" := by decide
    have e2 : ¬ (("\n" : String) ++ "    " ++ "variables:\n") = "\x7d\n" := by decide
    have e3 : ¬ ("\n\n// global properties:\n" : String) = "\x7d\n" := by decide
    have p1 : looksLikeOpenLine ("    " ++ "dimensions:\n") = false := by decide
    have p2 : looksLikeOpenLine ("\n" ++ "    " ++ "variables:\n") = false := by decide
    have p3 : looksLikeOpenLine "\n\n// global properties:\n" = false := by decide
    have p4 : looksLikeOpenLine "\x7d\n" = false := by decide
    have p1l : looksLikeOpenLine "    dimensions:\n" = false := by decide
    have p2l : looksLikeOpenLine "\n    variables:\n" = false := by decide
    constructor
    · simp [renderP, startindentOf, hg, List.count_append, List.count_cons, beq_iff_eq,
        cd1, cd2, cd3, cdd, hgc.1, groupCountC, e1, e2, e3]
      by_cases hh : cfg.header <;> by_cases hv : 0 < fvars.length <;>
        simp [hh, hv, e1, e2, cdd] <;> omega
    · simp [renderP, startindentOf, hg, List.countP_append, List.countP_cons,
        pd1, pd2, pd3, pdd, hgc.2, p1, p2, p3, p4]
      by_cases hh : cfg.header <;> by_cases hv : 0 < fvars.length <;>
        simp [hh, hv, p1, p2, p4, pdd, p1l, p2l] <;>
        exact fun a ha => (hdata a ha).2
theorem groupsP_count_braces (gs : GroupList) (cfg : Cfg) (hg : cfg.isgroup = true) :
    (groupsP gs cfg).count "\x7d\n" = groupCountG gs ∧
    (groupsP gs cfg).countP looksLikeOpenLine = 0 := by
  match gs with
  | .nil => simp [groupsP, groupCountG]
  | .cons gname g rest =>
    have hsi : startindentOf cfg.isgroup = "    " := by rw [hg]; rfl
    have hsub := renderP_count_braces g cfg.asGroup rfl
    have hrest := groupsP_count_braces rest cfg hg
    have heq : startindentOf cfg.isgroup ++ "group " ++ gname ++ ":\n" =
        ("    " ++ "group ") ++ (gname ++ ":\n") := by
      rw [hsi]
      simp [String.append_assoc]
    have hmark1 : startindentOf cfg.isgroup ++ "group " ++ gname ++ ":\n" ≠ "\x7d\n" := by
      rw [heq]
      exact string_ne_of_head ("    " ++ "group ") (gname ++ ":\n") _ (by decide)
    have hmark2 : looksLikeOpenLine (startindentOf cfg.isgroup ++ "group " ++ gname ++ ":\n")
        = false := by
      rw [heq, ← String.append_assoc]
      exact looksLikeOpen_false_of_suffix (("    " ++ "group ") ++ gname) ":\n"
        (by decide) '\n' ':' (by decide) (by decide)
    constructor
    · simp [groupsP, List.count_append, List.count_cons, groupCountG, hsub.1, hrest.1,
        beq_iff_eq, hmark1]
    · simp [groupsP, List.countP_append, List.countP_cons, hsub.2, hrest.2, hmark2]
end

theorem prefixed_take2 (p x : String) (hk : 2 ≤ p.data.length) :
    ((p ++ x).data.take 2) = p.data.take 2 :=
  take_append_short p x 2 hk

mutual
theorem renderP_take2_class (f : Container) (cfg : Cfg) (hwf : WFc f = true)
    (hh : cfg.header = true) :
    ∀ w ∈ renderP f cfg, w.data.take 2 = ['\n', '\n'] →
      w = "\n\n// global properties:\n" := by
  match f with
  | .mk ft fdims fvars fattrs hasG groups =>
    intro w hw htk
    simp only [WFc, Bool.and_eq_true, decide_eq_true_eq, List.all_eq_true] at hwf
    obtain ⟨⟨hft, _⟩, hgrp⟩ := hwf
    have hpre8 : ∀ (si' b : String), si' = "" ∨ si' = "    " →
        w = (si' ++ indent8) ++ b → False := by
      intro si' b hsi hw2
      rcases hsi with rfl | rfl
      · rw [hw2, prefixed_take2 _ _ (by decide)] at htk
        exact absurd htk (by decide)
      · rw [hw2, prefixed_take2 _ _ (by decide)] at htk
        exact absurd htk (by decide)
    have hopen : w = ft ++ " " ++ cfg.name ++ " \x7b\n" → False := by
      intro hw2
      subst hw2
      have hhd : (ft ++ " " ++ cfg.name ++ " \x7b\n").data.head? = some '\n' :=
        head_of_take2 _ _ _ htk
      rw [String.data_append, String.data_append, String.data_append] at hhd
      cases hft0 : ft.data with
      | nil => rw [hft0] at hhd; simp at hhd
      | cons c t =>
        rw [hft0] at hhd
        simp at hhd
        apply hft
        rw [hft0, hhd]
        exact List.mem_cons_self _ _
    have hgrps : w ∈ (if hasG then groupsP groups cfg else []) →
        w = "\n\n// global properties:\n" := by
      intro hw2
      by_cases hG : hasG
      · rw [if_pos hG] at hw2
        have hwfg : WFg groups = true := by
          rw [hG] at hgrp
          simpa using hgrp
        exact groupsP_take2_class groups cfg hwfg hh w hw2 htk
      · rw [if_neg hG] at hw2
        simp at hw2
    by_cases hgi : cfg.isgroup <;>
      simp only [renderP, hh, hgi, startindentOf, if_true, if_false, Bool.false_eq_true,
        ite_true, ite_false, List.mem_append, List.mem_cons, List.mem_singleton,
        List.not_mem_nil, or_false, false_or, or_assoc, List.append_nil, List.nil_append,
        List.mem_ite_nil_right] at hw
    · rcases hw with hw | hw | hw | hw | hw | hw | hw | hw
      · subst hw; exact absurd htk (by decide)
      · obtain ⟨a, b, _, hpre⟩ := mem_dimLinesP _ _ _ hw
        exact absurd (hpre8 _ _ (Or.inr rfl) hpre) id
      · obtain ⟨-, hw⟩ := hw
        subst hw; exact absurd htk (by decide)
      · obtain ⟨a, b, _, hpre⟩ := mem_varDeclsP _ _ _ hw
        exact absurd (hpre8 _ _ (Or.inr rfl) hpre) id
      · exact hw
      · obtain ⟨a, b, _, hpre⟩ := mem_globalAttrLinesP _ _ _ hw
        exact absurd (hpre8 _ _ (Or.inr rfl) hpre) id
      · obtain ⟨hG, hw⟩ := hw
        exact hgrps (by rw [if_pos hG]; exact hw)
      · subst hw; exact absurd htk (by decide)
    · rcases hw with hw | hw | hw | hw | hw | hw | hw | hw | hw
      · exact absurd (hopen hw) id
      · subst hw; exact absurd htk (by decide)
      · obtain ⟨a, b, _, hpre⟩ := mem_dimLinesP _ _ _ hw
        exact absurd (hpre8 _ _ (Or.inl rfl) hpre) id
      · obtain ⟨-, hw⟩ := hw
        subst hw; exact absurd htk (by decide)
      · obtain ⟨a, b, _, hpre⟩ := mem_varDeclsP _ _ _ hw
        exact absurd (hpre8 _ _ (Or.inl rfl) hpre) id
      · exact hw
      · obtain ⟨a, b, _, hpre⟩ := mem_globalAttrLinesP _ _ _ hw
        exact absurd (hpre8 _ _ (Or.inl rfl) hpre) id
      · obtain ⟨hG, hw⟩ := hw
        exact hgrps (by rw [if_pos hG]; exact hw)
      · subst hw; exact absurd htk (by decide)
theorem groupsP_take2_class (gs : GroupList) (cfg : Cfg) (hwf : WFg gs = true)
    (hh : cfg.header = true) :
    ∀ w ∈ groupsP gs cfg, w.data.take 2 = ['\n', '\n'] →
      w = "\n\n// global properties:\n" := by
  match gs with
  | .nil => intro w hw htk; simp [groupsP] at hw
  | .cons gname g rest =>
    intro w hw htk
    simp only [WFg, Bool.and_eq_true] at hwf
    obtain ⟨h1, h2⟩ := hwf
    rcases List.mem_cons.mp hw with hw | hw
    · subst hw
      by_cases hgi : cfg.isgroup
      · have heq : startindentOf cfg.isgroup ++ "group " ++ gname ++ ":\n" =
            ("    " ++ "group ") ++ (gname ++ ":\n") := by
          rw [hgi]
          simp [startindentOf, String.append_assoc]
        rw [heq, prefixed_take2 _ _ (by decide)] at htk
        exact absurd htk (by decide)
      · have heq : startindentOf cfg.isgroup ++ "group " ++ gname ++ ":\n" =
            ("group " : String) ++ (gname ++ ":\n") := by
          simp [hgi, startindentOf, String.append_assoc]
        rw [heq, prefixed_take2 _ _ (by decide)] at htk
        exact absurd htk (by decide)
    · rcases List.mem_append.mp hw with hw | hw
      · exact renderP_take2_class g cfg.asGroup h1 hh w hw htk
      · exact groupsP_take2_class rest cfg h2 hh w hw htk
end

/-- C1: in full-index mode on the `[2,3]` variable `[[1,2,3],[4,5,6]]`,
c-mode emits one line per element in row-major order annotated with the
0-based coordinate tuples `(0, 0)` through `(1, 2)`, each terminated by
`,` except the last, terminated by `;`; f-mode emits the same values with
reversed, 1-based tuples `(1, 1)` through `(3, 2)`. -/
theorem claim_c1_full_index_modes :
    outLines sample23 cfgC =
      ["File unknown \x7b\n", "dimensions:\n", "        t = 2 ;\n", "        x = 3 ;\n",
       "\nvariables:\n", "        integer v(t, x);\n", "\n\n// global properties:\n",
       "\n\ndata:\n", " v =\n",
       "  1, // v(0, 0) \n", "  2, // v(0, 1) \n", "  3, // v(0, 2) \n",
       "  4, // v(1, 0) \n", "  5, // v(1, 1) \n", "  6; // v(1, 2) \n", "\x7d\n"] ∧
    outLines sample23 cfgF =
      ["File unknown \x7b\n", "dimensions:\n", "        t = 2 ;\n", "        x = 3 ;\n",
       "\nvariables:\n", "        integer v(t, x);\n", "\n\n// global properties:\n",
       "\n\ndata:\n", " v =\n",
       "  1, // v(1, 1) \n", "  2, // v(2, 1) \n", "  3, // v(3, 1) \n",
       "  4, // v(1, 2) \n", "  5, // v(2, 2) \n", "  6; // v(3, 2) \n", "\x7d\n"] :=
  ⟨rfl, rfl⟩

/-- C3 counterexample: with a group `g1` containing a group `g2`, the
depth-2 group's `dimensions:` line carries 4 spaces of indent, exactly as
the depth-1 group's, and no line carries the 8 spaces the claimed
`4*d`-spaces rule requires at depth 2. -/
theorem claim_c3_cex :
    outLines nested2 cfgH =
      ["File unknown \x7b\n", "dimensions:\n", "\n\n// global properties:\n", "group g1:\n",
       "    dimensions:\n", "\n\n// global properties:\n", "    group g2:\n",
       "    dimensions:\n", "\n\n// global properties:\n", "\x7d\n", "\x7d\n", "\x7d\n"] ∧
    (outLines nested2 cfgH).count "    dimensions:\n" = 2 ∧
    (outLines nested2 cfgH).count "        dimensions:\n" = 0 :=
  ⟨rfl, by decide, by decide⟩

/-- C4: the render of a file holding only variable `a` under the filter
`["a", "b"]` issues no warning (the comparison at source line 113 is
inverted), while the found variable `a` is still rendered, the empty
filter renders all variables, and in fact the warning condition can never
hold for any duplicate-free variable list. -/
theorem claim_c4_no_warning :
    (runDump okSink sampleA cfgAB).eff.warns = [] ∧
    (runDump okSink sampleA cfgAB).fault = none ∧
    " a =\n" ∈ outLines sampleA cfgAB ∧
    " a =\n" ∈ outLines sampleA cfgBase ∧
    (∀ keys vs : List String, vs ≠ [] → keys.Nodup →
      ¬ vs.length < (displayVars keys vs).length) := by
  refine ⟨by decide, by decide, by decide, by decide, ?_⟩
  intro keys vs hne hnd h
  have hsub : displayVars keys vs ⊆ vs := by
    intro x hx
    rcases List.mem_filter.mp hx with ⟨-, hc⟩
    rcases Bool.or_eq_true_iff.mp hc with hc | hc
    · exact List.mem_of_elem_eq_true hc
    · exact absurd (List.isEmpty_iff.mp hc) hne
  have hndd : (displayVars keys vs).Nodup := List.Nodup.filter _ hnd
  have hle : (displayVars keys vs).length ≤ vs.length := by
    have h1 : (displayVars keys vs).toFinset.card = (displayVars keys vs).length :=
      List.toFinset_card_of_nodup hndd
    have h2 : (displayVars keys vs).toFinset ⊆ vs.toFinset := by
      intro x hx
      exact List.mem_toFinset.mpr (hsub (List.mem_toFinset.mp hx))
    calc (displayVars keys vs).length = (displayVars keys vs).toFinset.card := h1.symm
      _ ≤ vs.toFinset.card := Finset.card_le_card h2
      _ ≤ vs.length := vs.toFinset_card_le
  omega

/-- C5 counterexample: the unlimited dimension `u` of size 3 is declared as
`        u = UNLIMITED // (3 currently) ` followed by a newline — with no
terminating semicolon, against the claimed `... currently) ;` form. -/
theorem claim_c5_cex :
    outLines sampleU cfgH =
      ["File unknown \x7b\n", "dimensions:\n", "        u = UNLIMITED // (3 currently) \n",
       "\n\n// global properties:\n", "\x7d\n"] ∧
    "        u = UNLIMITED // (3 currently) ;\n" ∉ outLines sampleU cfgH ∧
    "        u = UNLIMITED // (3 currently);\n" ∉ outLines sampleU cfgH :=
  ⟨rfl, by decide, by decide⟩

/-- C6: the 16-bit integer dtype is absent from both the header
type-keyword table and the data format table (both lookups raise
KeyError), although every other member of the claimed enumeration is
mapped by both; rendering a file with an int16 variable aborts in the
header phase without reaching the closing brace. -/
theorem claim_c6_int16_unmapped :
    varTypeMap "int16" = none ∧
    (∀ fp dp : Nat, formats fp dp "int16" = none) ∧
    (∀ t ∈ ["float32", "float64", "int32", "int64", "bool", "string8"],
      (varTypeMap t).isSome = true) ∧
    (∀ fp dp : Nat, ∀ t ∈ ["float32", "float64", "int32", "int64", "bool", "string8"],
      (formats fp dp t).isSome = true) ∧
    (runDump okSink sampleI16 cfgH).fault = some .keyError ∧
    "\x7d\n" ∉ outLines sampleI16 cfgH ∧
    (runDump okSink sampleI16 cfgBase).fault = some .keyError := by
  refine ⟨rfl, fun _ _ => rfl, by decide, ?_, by decide, by decide, by decide⟩
  intro fp dp t ht
  fin_cases ht <;> rfl

/-- C7: an IOError at the `data:`-marker write (write 6) or at the
`<var> =` write (write 7) propagates to the caller as an unhandled fault
with no closing brace, because only the element-value writes are guarded;
an IOError at the element write (write 8) is handled — warning plus clean
`SystemExit` in reshaped mode, `sys.stdout.close()` plus clean
`SystemExit` in full-index mode — still without the closing brace; a
KeyboardInterrupt in the data section flushes and exits cleanly; and an
undisturbed render completes with the closing brace as its last write. -/
theorem claim_c7_sink_failures :
    (runDump (failSink 6) sampleV2 cfgBase).fault = some .ioerror ∧
    "\x7d\n" ∉ (runDump (failSink 6) sampleV2 cfgBase).eff.out ∧
    "\n\ndata:\n" ∉ (runDump (failSink 6) sampleV2 cfgBase).eff.out ∧
    (runDump (failSink 7) sampleV2 cfgBase).fault = some .ioerror ∧
    (runDump (failSink 8) sampleV2 cfgBase).fault = some .sysExit ∧
    (runDump (failSink 8) sampleV2 cfgBase).eff.warns = [ioWarnMsg] ∧
    "\x7d\n" ∉ (runDump (failSink 8) sampleV2 cfgBase).eff.out ∧
    (runDump (kbSink 8) sampleV2 cfgBase).fault = some .sysExit ∧
    (runDump (kbSink 8) sampleV2 cfgBase).eff.flushed = true ∧
    (runDump (failSink 8) sampleV2 cfgC).fault = some .sysExit ∧
    (runDump (failSink 8) sampleV2 cfgC).eff.closed = true ∧
    (runDump okSink sampleV2 cfgBase).fault = none ∧
    (outLines sampleV2 cfgBase).getLast? = some "\x7d\n" := by
  refine ⟨by decide, by decide, by decide, by decide, by decide, by decide, by decide,
    by decide, by decide, by decide, by decide, by decide, by decide⟩

/-- C9 counterexample: a file with one dimension and no variables renders
the `dimensions:` header but no `variables:` header line at all. -/
theorem claim_c9_cex :
    outLines sampleNoVars cfgH =
      ["File unknown \x7b\n", "dimensions:\n", "        x = 3 ;\n",
       "\n\n// global properties:\n", "\x7d\n"] ∧
    "\nvariables:\n" ∉ outLines sampleNoVars cfgH :=
  ⟨rfl, by decide⟩

/-- C10 counterexample: the nested-group invocation on a group holding one
subgroup completes with two closing-brace lines and no opening-brace
line, so its block has two more closing braces than opening braces, not
exactly one more. -/
theorem claim_c10_cex :
    (pncdump okSink grpMid cfgHG 0).eff.out =
      ["    dimensions:\n", "\n\n// global properties:\n", "    group g2:\n",
       "    dimensions:\n", "\n\n// global properties:\n", "\x7d\n", "\x7d\n"] ∧
    (pncdump okSink grpMid cfgHG 0).eff.out.count "\x7d\n" = 2 ∧
    (pncdump okSink grpMid cfgHG 0).eff.out.countP looksLikeOpenLine = 0 ∧
    (pncdump okSink grpMid cfgHG 0).fault = none :=
  ⟨rfl, by decide, by decide, by decide⟩

/-- C2: in reshaped mode, a variable over axis sizes `ds` with more than
one axis is read as `prod (leading axes)` rows of `last axis` values, a
single-axis variable as one row of all its values; the rows partition the
row-major data in order, and every row string ends in `,` except the row
at index `numRows - 1`, which ends in `;`. -/
theorem claim_c2_reshaped (ds : List Nat) (data : List Scalar) (efmt : String)
    (hne : ds ≠ []) (hlen : data.length = listProd ds) :
    (takeRows ((reshapedShape ds).getLastD 0) ((reshapedShape ds).headD 0) data).length =
      (if 1 < ds.length then listProd ds.dropLast else 1) ∧
    (∀ r ∈ takeRows ((reshapedShape ds).getLastD 0) ((reshapedShape ds).headD 0) data,
      r.length = ds.getLastD 0) ∧
    (takeRows ((reshapedShape ds).getLastD 0) ((reshapedShape ds).headD 0) data).flatten = data ∧
    (∀ rowi row, rowi = (reshapedShape ds).headD 0 - 1 →
      (rowStr efmt ((reshapedShape ds).headD 0) rowi row).data.getLast? = some ';') ∧
    (∀ rowi row, rowi ≠ (reshapedShape ds).headD 0 - 1 →
      (rowStr efmt ((reshapedShape ds).headD 0) rowi row).data.getLast? = some ',') := by
  have hterm : ∀ nr rowi row,
      (rowi = nr - 1 → (rowStr efmt nr rowi row).data.getLast? = some ';') ∧
      (rowi ≠ nr - 1 → (rowStr efmt nr rowi row).data.getLast? = some ',') := by
    intro nr rowi row
    constructor <;> intro h <;>
      simp [rowStr, h, String.data_append, List.getLast?_concat]
  by_cases h1 : 1 < ds.length
  · have hsh : reshapedShape ds = [listProd ds.dropLast, ds.getLastD 1] := by
      simp [reshapedShape, h1]
    have hgl : ds.getLastD 1 = ds.getLastD 0 := getLastD_irrel ds hne 1 0
    have hhead : (reshapedShape ds).headD 0 = listProd ds.dropLast := by rw [hsh]; rfl
    have hlast : (reshapedShape ds).getLastD 0 = ds.getLastD 0 := by rw [hsh, ← hgl]; rfl
    have hrk : data.length = listProd ds.dropLast * ds.getLastD 0 := by
      rw [hlen, listProd_dropLast ds hne, hgl]
    refine ⟨?_, ?_, ?_, ?_, ?_⟩
    · rw [hhead, hlast, takeRows_length, if_pos h1]
    · rw [hhead, hlast]; exact takeRows_row_length _ _ _ hrk
    · rw [hhead, hlast]; exact takeRows_join _ _ _ hrk
    · intro rowi row h; exact (hterm _ rowi row).1 h
    · intro rowi row h; exact (hterm _ rowi row).2 h
  · have hl1 : ds.length = 1 := by
      have : 0 < ds.length := List.length_pos.mpr hne
      omega
    rcases List.length_eq_one.mp hl1 with ⟨n, rfl⟩
    have hsh : reshapedShape [n] = [1, n] := by simp [reshapedShape]
    have hrk : data.length = 1 * n := by
      rw [hlen]; simp [listProd]
    refine ⟨?_, ?_, ?_, ?_, ?_⟩
    · rw [hsh]; simp [takeRows_length]
    · rw [hsh]
      intro r hr
      exact takeRows_row_length n 1 data hrk r (by simpa using hr)
    · rw [hsh]
      exact takeRows_join n 1 data hrk
    · intro rowi row h; exact (hterm _ rowi row).1 h
    · intro rowi row h; exact (hterm _ rowi row).2 h

/-- C3 amended: every nested group, at any depth, is rendered with the
single fixed 4-space indent (the recursion passes only `isgroup = True`
and never accumulates depth): a well-formed header render entered as a
group emits exactly one 4-space-indented `dimensions:` marker per group
reached — 1 for itself plus one per descendant group — and never an
8-space-indented one. -/
theorem claim_c3_amended (f : Container) (cfg : Cfg) (n : Nat) (hwf : WFc f = true)
    (hg : cfg.isgroup = true) (hh : cfg.header = true) :
    (pncdump okSink f cfg n).fault = none ∧
    (pncdump okSink f cfg n).eff.out.count "    dimensions:\n" = 1 + groupCountC f ∧
    (pncdump okSink f cfg n).eff.out.count "        dimensions:\n" = 0 := by
  rw [pncdump_ok f cfg n hwf (by rw [hh]; rfl)]
  exact ⟨rfl, (renderP_count_dims f cfg hg hh).1, (renderP_count_dims f cfg hg hh).2⟩

/-- Witness for the amended C3 at the two-level group nesting. -/
theorem claim_c3_amended_witness :
    (WFc grpMid = true ∧ cfgHG.isgroup = true ∧ cfgHG.header = true) ∧
    ((pncdump okSink grpMid cfgHG 0).fault = none ∧
     (pncdump okSink grpMid cfgHG 0).eff.out.count "    dimensions:\n" = 1 + groupCountC grpMid ∧
     (pncdump okSink grpMid cfgHG 0).eff.out.count "        dimensions:\n" = 0) :=
  ⟨⟨by decide, by decide, by decide⟩,
   claim_c3_amended grpMid cfgHG 0 (by decide) (by decide) (by decide)⟩

/-- C10 amended: a completed nested-group invocation writes no
opening-brace line and exactly `1 + (number of descendant group
invocations)` closing-brace lines: one of its own plus one per descendant
group. -/
theorem claim_c10_amended (f : Container) (cfg : Cfg) (n : Nat) (hwf : WFc f = true)
    (hg : cfg.isgroup = true) (hm : (cfg.header || modeOK cfg) = true) :
    (pncdump okSink f cfg n).fault = none ∧
    (pncdump okSink f cfg n).eff.out.count "\x7d\n" = 1 + groupCountC f ∧
    (pncdump okSink f cfg n).eff.out.countP looksLikeOpenLine = 0 := by
  rw [pncdump_ok f cfg n hwf hm]
  exact ⟨rfl, (renderP_count_braces f cfg hg).1, (renderP_count_braces f cfg hg).2⟩

/-- Witness for the amended C10 at the group with one subgroup, data
section included. -/
theorem claim_c10_amended_witness :
    (WFc grpMid = true ∧ cfgG.isgroup = true ∧ (cfgG.header || modeOK cfgG) = true) ∧
    ((pncdump okSink grpMid cfgG 0).fault = none ∧
     (pncdump okSink grpMid cfgG 0).eff.out.count "\x7d\n" = 1 + groupCountC grpMid ∧
     (pncdump okSink grpMid cfgG 0).eff.out.countP looksLikeOpenLine = 0) :=
  ⟨⟨by decide, by decide, by decide⟩,
   claim_c10_amended grpMid cfgG 0 (by decide) (by decide) (by decide)⟩

/-- C5 amended: the dimensions section emits exactly one line per
dimension, in insertion order, with the startindent plus 8 spaces; the
unlimited form is `<name> = UNLIMITED // (<size> currently) ` plus a
newline — never semicolon-terminated — and the sized form is
`<name> = <size> ;`. -/
theorem claim_c5_amended (si : String) (L : List (String × Dimension)) (n : Nat) :
    (dimLines okSink si L n).eff.out = L.map (fun p => si ++ indent8 ++ dimLine p.1 p.2) ∧
    (dimLines okSink si L n).fault = none ∧
    (∀ nm d, d.unlimited = true →
      dimLine nm d = nm ++ " = UNLIMITED // (" ++ toString d.size ++ " currently) \n") ∧
    (∀ nm d, d.unlimited = false →
      dimLine nm d = nm ++ " = " ++ toString d.size ++ " ;\n") ∧
    (∀ nm d (s : String), d.unlimited = true → dimLine nm d ≠ s ++ ";\n") := by
  refine ⟨?_, ?_, ?_, ?_, ?_⟩
  · rw [dimLines_ok]
    rfl
  · rw [dimLines_ok]
  · intro nm d h
    simp [dimLine, h]
  · intro nm d h
    simp [dimLine, h]
  · intro nm d s h heq
    rw [show dimLine nm d =
        (nm ++ " = UNLIMITED // (" ++ toString d.size) ++ " currently) \n" by
      simp [dimLine, h, String.append_assoc]] at heq
    have h1 := congrArg (fun t : String => t.data.reverse.take 2) heq
    simp only at h1
    rw [rtake_append _ _ 2 (by decide), rtake_append _ _ 2 (by decide)] at h1
    exact absurd h1 (by decide)

/-- Witness for the amended C5 at one unlimited and one sized dimension. -/
theorem claim_c5_amended_witness :
    (dimLines okSink "    " [("u", ⟨3, true⟩), ("x", ⟨2, false⟩)] 0).eff.out =
      ([("u", (⟨3, true⟩ : Dimension)), ("x", ⟨2, false⟩)].map
        (fun p => "    " ++ indent8 ++ dimLine p.1 p.2)) ∧
    (dimLines okSink "    " [("u", ⟨3, true⟩), ("x", ⟨2, false⟩)] 0).fault = none ∧
    (∀ nm d, d.unlimited = true →
      dimLine nm d = nm ++ " = UNLIMITED // (" ++ toString d.size ++ " currently) \n") ∧
    (∀ nm d, d.unlimited = false →
      dimLine nm d = nm ++ " = " ++ toString d.size ++ " ;\n") ∧
    (∀ nm d (s : String), d.unlimited = true → dimLine nm d ≠ s ++ ";\n") :=
  claim_c5_amended "    " [("u", ⟨3, true⟩), ("x", ⟨2, false⟩)] 0

/-- C8: a header-only render never enters the data section at any group
level: it completes, every write opening with a blank line is the
global-properties marker (in particular no `data:` section marker and no
element values are written), while the dimensions marker, the
global-properties marker and — when variables exist — the variables
marker are still emitted. -/
theorem claim_c8_header_only (f : Container) (cfg : Cfg) (n : Nat) (hwf : WFc f = true)
    (hh : cfg.header = true) :
    (pncdump okSink f cfg n).fault = none ∧
    (∀ w ∈ (pncdump okSink f cfg n).eff.out, w.data.take 2 = ['\n', '\n'] →
      w = "\n\n// global properties:\n") ∧
    (startindentOf cfg.isgroup ++ "dimensions:\n") ∈ (pncdump okSink f cfg n).eff.out ∧
    "\n\n// global properties:\n" ∈ (pncdump okSink f cfg n).eff.out ∧
    (f.vars ≠ [] → ("\n" ++ startindentOf cfg.isgroup ++ "variables:\n") ∈
      (pncdump okSink f cfg n).eff.out) := by
  match f with
  | .mk ft fdims fvars fattrs hasG groups =>
    rw [pncdump_ok _ cfg n hwf (by rw [hh]; rfl)]
    refine ⟨rfl, renderP_take2_class _ cfg hwf hh, ?_, ?_, ?_⟩
    · simp [renderP, List.mem_append]
    · simp [renderP, List.mem_append]
    · intro hv
      have hv' : 0 < fvars.length := List.length_pos.mpr hv
      simp [renderP, hv', List.mem_append]

/-- Witness for C8 at the `[2,3]` sample file in header mode. -/
theorem claim_c8_header_only_witness :
    (WFc sample23 = true ∧ cfgH.header = true) ∧
    ((pncdump okSink sample23 cfgH 0).fault = none ∧
     (∀ w ∈ (pncdump okSink sample23 cfgH 0).eff.out, w.data.take 2 = ['\n', '\n'] →
       w = "\n\n// global properties:\n") ∧
     (startindentOf cfgH.isgroup ++ "dimensions:\n") ∈ (pncdump okSink sample23 cfgH 0).eff.out ∧
     "\n\n// global properties:\n" ∈ (pncdump okSink sample23 cfgH 0).eff.out ∧
     (sample23.vars ≠ [] → ("\n" ++ startindentOf cfgH.isgroup ++ "variables:\n") ∈
       (pncdump okSink sample23 cfgH 0).eff.out)) :=
  ⟨⟨by decide, by decide⟩, claim_c8_header_only sample23 cfgH 0 (by decide) (by decide)⟩

/-- C9 amended: for a groupless well-formed container, the `dimensions:`
section marker and the global-properties marker are always emitted, even
with empty bodies, while the `variables:` section marker is emitted
exactly when the container has at least one variable. -/
theorem claim_c9_amended (f : Container) (cfg : Cfg) (n : Nat) (hwf : WFc f = true)
    (hm : (cfg.header || modeOK cfg) = true) (hng : f.hasGroups = false) :
    ((startindentOf cfg.isgroup ++ "dimensions:\n") ∈ (pncdump okSink f cfg n).eff.out) ∧
    ("\n\n// global properties:\n" ∈ (pncdump okSink f cfg n).eff.out) ∧
    (f.vars ≠ [] → ("\n" ++ startindentOf cfg.isgroup ++ "variables:\n") ∈
      (pncdump okSink f cfg n).eff.out) ∧
    (f.vars = [] → ("\n" ++ startindentOf cfg.isgroup ++ "variables:\n") ∉
      (pncdump okSink f cfg n).eff.out) := by
  match f with
  | .mk ft fdims fvars fattrs hasG groups =>
    have hng' : hasG = false := hng
    rw [pncdump_ok _ cfg n hwf hm]
    refine ⟨?_, ?_, ?_, ?_⟩
    · simp [renderP, List.mem_append]
    · simp [renderP, List.mem_append]
    · intro hv
      have hv' : 0 < fvars.length := List.length_pos.mpr hv
      simp [renderP, hv', List.mem_append]
    · intro hv
      have hv0 : fvars = [] := hv
      subst hv0
      intro hmem
      by_cases hgi : cfg.isgroup <;>
        simp only [renderP, hgi, hng', startindentOf, if_true, if_false, Bool.false_eq_true,
          ite_true, ite_false, varDeclsP, dataSectionP, dataVarLoopP, displayVars,
          List.map_nil, List.filter_nil, List.flatMap_nil, List.mem_append, List.mem_cons,
          List.mem_singleton, List.not_mem_nil, or_false, false_or, or_assoc,
          List.append_nil, List.nil_append, List.length_nil, Nat.lt_irrefl,
          List.mem_ite_nil_right, List.mem_ite_nil_left] at hmem
      · rcases hmem with hmem | hmem | hmem | hmem | hmem | hmem
        · exact absurd hmem (by decide)
        · obtain ⟨a, b, _, hpre⟩ := mem_dimLinesP _ _ _ hmem
          exact string_ne_of_head ("    " ++ indent8) b _ (by decide) hpre.symm
        · exact absurd hmem (by decide)
        · obtain ⟨a, b, _, hpre⟩ := mem_globalAttrLinesP _ _ _ hmem
          exact string_ne_of_head ("    " ++ indent8) b _ (by decide) hpre.symm
        · obtain ⟨-, hmem⟩ := hmem
          exact absurd hmem (by decide)
        · exact absurd hmem (by decide)
      · rcases hmem with hmem | hmem | hmem | hmem | hmem | hmem | hmem
        · exact string_ne_of_rtake ((ft ++ " ") ++ cfg.name) " \x7b\n" _ 2
            (by decide) (by decide) hmem.symm
        · exact absurd hmem (by decide)
        · obtain ⟨a, b, _, hpre⟩ := mem_dimLinesP _ _ _ hmem
          exact string_ne_of_head ("" ++ indent8) b _ (by decide) hpre.symm
        · exact absurd hmem (by decide)
        · obtain ⟨a, b, _, hpre⟩ := mem_globalAttrLinesP _ _ _ hmem
          exact string_ne_of_head ("" ++ indent8) b _ (by decide) hpre.symm
        · obtain ⟨-, hmem⟩ := hmem
          exact absurd hmem (by decide)
        · exact absurd hmem (by decide)

/-- Witness for the amended C9 at the one-variable file and at its
variable-free counterpart. -/
theorem claim_c9_amended_witness :
    (WFc sampleA = true ∧ (cfgBase.header || modeOK cfgBase) = true ∧
      sampleA.hasGroups = false) ∧
    (((startindentOf cfgBase.isgroup ++ "dimensions:\n") ∈
        (pncdump okSink sampleA cfgBase 0).eff.out) ∧
     ("\n\n// global properties:\n" ∈ (pncdump okSink sampleA cfgBase 0).eff.out) ∧
     (sampleA.vars ≠ [] → ("\n" ++ startindentOf cfgBase.isgroup ++ "variables:\n") ∈
       (pncdump okSink sampleA cfgBase 0).eff.out) ∧
     (sampleA.vars = [] → ("\n" ++ startindentOf cfgBase.isgroup ++ "variables:\n") ∉
       (pncdump okSink sampleA cfgBase 0).eff.out)) :=
  ⟨⟨by decide, by decide, by decide⟩,
   claim_c9_amended sampleA cfgBase 0 (by decide) (by decide) (by decide)⟩

/-- Witness for C2 at the `[2,3]` array `[1,2,3,4,5,6]`. -/
theorem claim_c2_reshaped_witness :
    ((([2, 3] : List Nat) ≠ []) ∧
      ([Scalar.i 1, .i 2, .i 3, .i 4, .i 5, .i 6].length = listProd [2, 3])) ∧
    ((takeRows ((reshapedShape [2, 3]).getLastD 0) ((reshapedShape [2, 3]).headD 0)
        [Scalar.i 1, .i 2, .i 3, .i 4, .i 5, .i 6]).length =
      (if 1 < ([2, 3] : List Nat).length then listProd ([2, 3] : List Nat).dropLast else 1) ∧
    (∀ r ∈ takeRows ((reshapedShape [2, 3]).getLastD 0) ((reshapedShape [2, 3]).headD 0)
        [Scalar.i 1, .i 2, .i 3, .i 4, .i 5, .i 6], r.length = ([2, 3] : List Nat).getLastD 0) ∧
    (takeRows ((reshapedShape [2, 3]).getLastD 0) ((reshapedShape [2, 3]).headD 0)
        [Scalar.i 1, .i 2, .i 3, .i 4, .i 5, .i 6]).flatten =
      [Scalar.i 1, .i 2, .i 3, .i 4, .i 5, .i 6] ∧
    (∀ rowi row, rowi = (reshapedShape [2, 3]).headD 0 - 1 →
      (rowStr "%i" ((reshapedShape [2, 3]).headD 0) rowi row).data.getLast? = some ';') ∧
    (∀ rowi row, rowi ≠ (reshapedShape [2, 3]).headD 0 - 1 →
      (rowStr "%i" ((reshapedShape [2, 3]).headD 0) rowi row).data.getLast? = some ',')) :=
  ⟨⟨by decide, by decide⟩,
   claim_c2_reshaped [2, 3] [Scalar.i 1, .i 2, .i 3, .i 4, .i 5, .i 6] "%i"
     (by decide) (by decide)⟩

end PncDump

